import Mathlib

/-!
Verification of the negotiator host/guest RPC bridge.

This file embeds the core of the `python-negotiator` repository in Lean:

* the length-prefixed JSON frame codec of
  `negotiator_common/__init__.py` (`NegotiatorInterface.read` / `write`),
  including a model of Python's `json.dumps` (default separators,
  `ensure_ascii`) and `json.loads`;
* the serve loop `NegotiatorInterface.enter_main_loop` (current revision)
  and the historical revision in `negotiator_common.py` with its
  `__getattr__` attribute proxy;
* command resolution in `NegotiatorInterface.execute` and the host-side
  `GuestChannel.prepare_environment` environment injection;
* the host daemon's reconciliation tick (`HostDaemon.update_active_channels`
  together with `find_available_channels`);
* the guest agent's blocking-read emulation (`GuestAgent.raw_readline`)
  as a trace model tracking the SIGIO helper subprocess.

Values are restricted to the JSON fragment actually exchanged by the
programs: `null`, booleans, arbitrary-precision integers, strings, arrays
and objects.  Floating point numbers are outside the embedding.
-/

set_option maxRecDepth 4096

namespace Negotiator

/-- A JSON value as produced by Python's `json` module for the values the
programs exchange.  Objects are ordered association lists, mirroring the
insertion order of Python dictionaries; Python dictionaries cannot hold
duplicate keys, which is captured by `wfJson` below. -/
inductive Json where
  | null : Json
  | bool (b : Bool) : Json
  | num (i : Int) : Json
  | str (s : String) : Json
  | arr (elems : List Json) : Json
  | obj (members : List (String × Json)) : Json

mutual

def decEqJson : (a b : Json) → Decidable (a = b)
  | .null, .null => isTrue rfl
  | .bool a, .bool b =>
    if h : a = b then isTrue (h ▸ rfl) else isFalse (fun hh => by cases hh; exact h rfl)
  | .num a, .num b =>
    if h : a = b then isTrue (h ▸ rfl) else isFalse (fun hh => by cases hh; exact h rfl)
  | .str a, .str b =>
    if h : a = b then isTrue (h ▸ rfl) else isFalse (fun hh => by cases hh; exact h rfl)
  | .arr a, .arr b =>
    match decEqElems a b with
    | isTrue h => isTrue (h ▸ rfl)
    | isFalse h => isFalse (fun hh => by cases hh; exact h rfl)
  | .obj a, .obj b =>
    match decEqMembers a b with
    | isTrue h => isTrue (h ▸ rfl)
    | isFalse h => isFalse (fun hh => by cases hh; exact h rfl)
  | .null, .bool _ => isFalse (fun h => Json.noConfusion h)
  | .null, .num _ => isFalse (fun h => Json.noConfusion h)
  | .null, .str _ => isFalse (fun h => Json.noConfusion h)
  | .null, .arr _ => isFalse (fun h => Json.noConfusion h)
  | .null, .obj _ => isFalse (fun h => Json.noConfusion h)
  | .bool _, .null => isFalse (fun h => Json.noConfusion h)
  | .bool _, .num _ => isFalse (fun h => Json.noConfusion h)
  | .bool _, .str _ => isFalse (fun h => Json.noConfusion h)
  | .bool _, .arr _ => isFalse (fun h => Json.noConfusion h)
  | .bool _, .obj _ => isFalse (fun h => Json.noConfusion h)
  | .num _, .null => isFalse (fun h => Json.noConfusion h)
  | .num _, .bool _ => isFalse (fun h => Json.noConfusion h)
  | .num _, .str _ => isFalse (fun h => Json.noConfusion h)
  | .num _, .arr _ => isFalse (fun h => Json.noConfusion h)
  | .num _, .obj _ => isFalse (fun h => Json.noConfusion h)
  | .str _, .null => isFalse (fun h => Json.noConfusion h)
  | .str _, .bool _ => isFalse (fun h => Json.noConfusion h)
  | .str _, .num _ => isFalse (fun h => Json.noConfusion h)
  | .str _, .arr _ => isFalse (fun h => Json.noConfusion h)
  | .str _, .obj _ => isFalse (fun h => Json.noConfusion h)
  | .arr _, .null => isFalse (fun h => Json.noConfusion h)
  | .arr _, .bool _ => isFalse (fun h => Json.noConfusion h)
  | .arr _, .num _ => isFalse (fun h => Json.noConfusion h)
  | .arr _, .str _ => isFalse (fun h => Json.noConfusion h)
  | .arr _, .obj _ => isFalse (fun h => Json.noConfusion h)
  | .obj _, .null => isFalse (fun h => Json.noConfusion h)
  | .obj _, .bool _ => isFalse (fun h => Json.noConfusion h)
  | .obj _, .num _ => isFalse (fun h => Json.noConfusion h)
  | .obj _, .str _ => isFalse (fun h => Json.noConfusion h)
  | .obj _, .arr _ => isFalse (fun h => Json.noConfusion h)

def decEqElems : (a b : List Json) → Decidable (a = b)
  | [], [] => isTrue rfl
  | [], _ :: _ => isFalse (fun h => List.noConfusion h)
  | _ :: _, [] => isFalse (fun h => List.noConfusion h)
  | x :: xs, y :: ys =>
    match decEqJson x y, decEqElems xs ys with
    | isTrue h1, isTrue h2 => isTrue (h1 ▸ h2 ▸ rfl)
    | isFalse h1, _ => isFalse (fun hh => by cases hh; exact h1 rfl)
    | _, isFalse h2 => isFalse (fun hh => by cases hh; exact h2 rfl)

def decEqMembers : (a b : List (String × Json)) → Decidable (a = b)
  | [], [] => isTrue rfl
  | [], _ :: _ => isFalse (fun h => List.noConfusion h)
  | _ :: _, [] => isFalse (fun h => List.noConfusion h)
  | (k, v) :: xs, (k2, v2) :: ys =>
    if hk : k = k2 then
      match decEqJson v v2, decEqMembers xs ys with
      | isTrue h1, isTrue h2 => isTrue (by rw [hk, h1, h2])
      | isFalse h1, _ => isFalse (fun hh => by cases hh; exact h1 rfl)
      | _, isFalse h2 => isFalse (fun hh => by cases hh; exact h2 rfl)
    else isFalse (fun hh => by cases hh; exact hk rfl)

end

instance : DecidableEq Json := decEqJson

mutual

/-- Well-formedness of a JSON value as a Python value: every object has
pairwise distinct keys (a Python `dict` cannot hold duplicates). -/
def wfJson : Json → Prop
  | .null => True
  | .bool _ => True
  | .num _ => True
  | .str _ => True
  | .arr xs => wfElems xs
  | .obj kvs => (kvs.map Prod.fst).Nodup ∧ wfMembers kvs

def wfElems : List Json → Prop
  | [] => True
  | x :: r => wfJson x ∧ wfElems r

def wfMembers : List (String × Json) → Prop
  | [] => True
  | kv :: r => wfJson kv.2 ∧ wfMembers r

end

mutual

instance wfJsonDec : (v : Json) → Decidable (wfJson v)
  | .null => isTrue trivial
  | .bool _ => isTrue trivial
  | .num _ => isTrue trivial
  | .str _ => isTrue trivial
  | .arr xs => by unfold wfJson; exact wfElemsDec xs
  | .obj kvs => by unfold wfJson; exact @instDecidableAnd _ _ _ (wfMembersDec kvs)

instance wfElemsDec : (xs : List Json) → Decidable (wfElems xs)
  | [] => isTrue trivial
  | x :: r => by unfold wfElems; exact @instDecidableAnd _ _ (wfJsonDec x) (wfElemsDec r)

instance wfMembersDec : (kvs : List (String × Json)) → Decidable (wfMembers kvs)
  | [] => isTrue trivial
  | kv :: r => by unfold wfMembers; exact @instDecidableAnd _ _ (wfJsonDec kv.2) (wfMembersDec r)

end

/-! ## Decimal rendering and parsing

`NegotiatorInterface.write` renders the byte count with `"%i"` and
`NegotiatorInterface.read` parses it back with `int(line, 10)` after an
`isdigit` check; Python's `repr` of an `int` uses the same decimal digits. -/

/-- The ASCII digit character for `n < 10`. -/
def digitChar (n : Nat) : Char := Char.ofNat (48 + n)

/-- Worker for `natDigits`; the fuel argument only bounds the recursion
depth and is irrelevant above the value (`natDigitsAux_congr`). -/
def natDigitsAux (fuel : Nat) (n : Nat) : List Char :=
  match fuel with
  | 0 => []
  | fuel + 1 =>
    if n < 10 then [digitChar n]
    else natDigitsAux fuel (n / 10) ++ [digitChar (n % 10)]

/-- Decimal digits of a natural number, most significant first
(the rendering produced by Python's `"%i" % n` for `n ≥ 0`). -/
def natDigits (n : Nat) : List Char := natDigitsAux (n + 1) n

theorem natDigitsAux_congr : ∀ n f1 f2, n < f1 → n < f2 →
    natDigitsAux f1 n = natDigitsAux f2 n := by
  intro n
  induction n using Nat.strong_induction_on with
  | _ n ih =>
    intro f1 f2 h1 h2
    obtain ⟨a, rfl⟩ : ∃ a, f1 = a + 1 := ⟨f1 - 1, by omega⟩
    obtain ⟨b, rfl⟩ : ∃ b, f2 = b + 1 := ⟨f2 - 1, by omega⟩
    simp only [natDigitsAux]
    by_cases hn : n < 10
    · rw [if_pos hn, if_pos hn]
    · rw [if_neg hn, if_neg hn]
      have hd : n / 10 < n := Nat.div_lt_self (by omega) (by omega)
      rw [ih (n / 10) hd a b (by omega) (by omega)]

/-- The recursive unfolding of `natDigits`. -/
theorem natDigits_eq (n : Nat) :
    natDigits n =
      if n < 10 then [digitChar n] else natDigits (n / 10) ++ [digitChar (n % 10)] := by
  have hstep : natDigitsAux (n + 1) n =
      if n < 10 then [digitChar n] else natDigitsAux n (n / 10) ++ [digitChar (n % 10)] := rfl
  unfold natDigits
  rw [hstep]
  by_cases hn : n < 10
  · rw [if_pos hn, if_pos hn]
  · rw [if_neg hn, if_neg hn]
    exact congrArg (· ++ [digitChar (n % 10)])
      (natDigitsAux_congr (n / 10) n (n / 10 + 1)
        (Nat.div_lt_self (by omega) (by omega)) (by omega))

/-- Python's rendering of an `int` (`"%i" % i` / `repr(i)`). -/
def intToDec (i : Int) : List Char :=
  if i < 0 then '-' :: natDigits i.natAbs else natDigits i.natAbs

/-- Numeric value of a digit string (the value computed by `int(line, 10)`
on a string of ASCII decimal digits). -/
def decVal (ds : List Char) : Nat :=
  ds.foldl (fun a c => a * 10 + (c.toNat - 48)) 0

theorem decVal_append (xs ys : List Char) :
    decVal (xs ++ ys) = ys.foldl (fun a c => a * 10 + (c.toNat - 48)) (decVal xs) := by
  unfold decVal
  rw [List.foldl_append]

theorem digitChar_isDigit {n : Nat} (h : n < 10) : (digitChar n).isDigit = true := by
  interval_cases n <;> decide

theorem digitChar_toNat {n : Nat} (h : n < 10) : (digitChar n).toNat = 48 + n := by
  interval_cases n <;> decide

theorem natDigits_all_digits (n : Nat) : ∀ c ∈ natDigits n, c.isDigit = true := by
  induction n using Nat.strong_induction_on with
  | _ n ih =>
    intro c hc
    rw [natDigits_eq] at hc
    split at hc
    · next h =>
      simp only [List.mem_singleton] at hc
      exact hc ▸ digitChar_isDigit h
    · next h =>
      rcases List.mem_append.mp hc with h1 | h2
      · exact ih (n / 10) (Nat.div_lt_self (by omega) (by omega)) c h1
      · simp only [List.mem_singleton] at h2
        exact h2 ▸ digitChar_isDigit (Nat.mod_lt _ (by omega))

theorem decVal_natDigits (n : Nat) : decVal (natDigits n) = n := by
  induction n using Nat.strong_induction_on with
  | _ n ih =>
    rw [natDigits_eq]
    split
    · next h =>
      simp [decVal, digitChar_toNat h]
    · next h =>
      rw [decVal_append, ih (n / 10) (Nat.div_lt_self (by omega) (by omega))]
      simp only [List.foldl_cons, List.foldl_nil]
      rw [digitChar_toNat (Nat.mod_lt _ (by omega))]
      omega

theorem natDigits_ne_nil (n : Nat) : natDigits n ≠ [] := by
  rw [natDigits_eq]
  split <;> simp

theorem natDigits_head_ne_zero {n : Nat} (h : 1 ≤ n) :
    ∃ c cs, natDigits n = c :: cs ∧ c ≠ '0' ∧ c.isDigit = true := by
  induction n using Nat.strong_induction_on with
  | _ n ih =>
    rw [natDigits_eq]
    split
    · next hlt =>
      refine ⟨digitChar n, [], rfl, ?_, digitChar_isDigit hlt⟩
      have : n ≠ 0 := by omega
      interval_cases n <;> simp_all <;> decide
    · next hge =>
      obtain ⟨c, cs, heq, hne, hd⟩ := ih (n / 10)
        (Nat.div_lt_self (by omega) (by omega)) (by omega)
      exact ⟨c, cs ++ [digitChar (n % 10)], by rw [heq]; rfl, hne, hd⟩

/-! ## String escaping

`json.dumps` runs with the default `ensure_ascii=True`: a character is
kept literally when it is printable ASCII (other than `"` and `\`),
replaced by a two-character escape when it has one, and otherwise written
as `\uXXXX` (as a surrogate pair for characters above `U+FFFF`). -/

/-- Lower-case hexadecimal digit for `n < 16` (Python formats `\uXXXX`
escapes with lower-case hex). -/
def hexDigitChar (n : Nat) : Char :=
  if n < 10 then Char.ofNat (48 + n) else Char.ofNat (87 + n)

/-- Numeric value of a hexadecimal digit as accepted by `int(s, 16)`
inside `json.loads` (both cases accepted). -/
def hexVal (c : Char) : Option Nat :=
  if 48 ≤ c.toNat ∧ c.toNat ≤ 57 then some (c.toNat - 48)
  else if 97 ≤ c.toNat ∧ c.toNat ≤ 102 then some (c.toNat - 87)
  else if 65 ≤ c.toNat ∧ c.toNat ≤ 70 then some (c.toNat - 55)
  else none

/-- The four hex digits of a `\uXXXX` escape for `n < 0x10000`. -/
def hex4 (n : Nat) : List Char :=
  [hexDigitChar (n / 4096 % 16), hexDigitChar (n / 256 % 16),
   hexDigitChar (n / 16 % 16), hexDigitChar (n % 16)]

/-- Escape of a single character as produced by Python's
`json.encoder.py_encode_basestring_ascii`. -/
def escapeChar (c : Char) : List Char :=
  if c = '\\' then ['\\', '\\']
  else if c = '"' then ['\\', '"']
  else if c = '\x08' then ['\\', 'b']
  else if c = '\x0c' then ['\\', 'f']
  else if c = '\n' then ['\\', 'n']
  else if c = '\r' then ['\\', 'r']
  else if c = '\t' then ['\\', 't']
  else if 0x20 ≤ c.toNat ∧ c.toNat ≤ 0x7e then [c]
  else if c.toNat < 0x10000 then '\\' :: 'u' :: hex4 c.toNat
  else
    let n := c.toNat - 0x10000
    ('\\' :: 'u' :: hex4 (0xd800 + n / 0x400)) ++ ('\\' :: 'u' :: hex4 (0xdc00 + n % 0x400))

/-- Escaped form of a whole string (the characters between the two `"`). -/
def escList (cs : List Char) : List Char :=
  cs.flatMap escapeChar

/-! ## The serializer

Model of `json.dumps(value)` with the default arguments used by
`NegotiatorInterface.write`: item separator `", "`, key separator `": "`,
`ensure_ascii=True`. -/

mutual

def serVal : Json → List Char
  | .null => ['n', 'u', 'l', 'l']
  | .bool b => if b then ['t', 'r', 'u', 'e'] else ['f', 'a', 'l', 's', 'e']
  | .num i => intToDec i
  | .str s => '"' :: escList s.data ++ ['"']
  | .arr xs => '[' :: serElems xs ++ [']']
  | .obj kvs => '\x7b' :: serMembers kvs ++ ['\x7d']

def serElems : List Json → List Char
  | [] => []
  | x :: r =>
    serVal x ++ match r with
                | [] => []
                | y :: r2 => ',' :: ' ' :: serElems (y :: r2)

def serMembers : List (String × Json) → List Char
  | [] => []
  | kv :: r =>
    ('"' :: escList kv.1.data ++ '"' :: ':' :: ' ' :: serVal kv.2) ++
      match r with
      | [] => []
      | kv2 :: r2 => ',' :: ' ' :: serMembers (kv2 :: r2)

end

/-- `json.dumps` as used by `NegotiatorInterface.write`. -/
def dumps (v : Json) : String := String.mk (serVal v)

/-- UTF-8 byte width of one character. -/
def charBytes (c : Char) : Nat :=
  if c.toNat < 0x80 then 1
  else if c.toNat < 0x800 then 2
  else if c.toNat < 0x10000 then 3
  else 4

/-- UTF-8 byte length of a character list. -/
def utf8Len (cs : List Char) : Nat :=
  (cs.map charBytes).sum

/-! ## The parser

Model of `json.loads` as called by `NegotiatorInterface.read`, restricted
to the value fragment of the embedding: numbers with a fraction or an
exponent (floats) and escape sequences denoting lone surrogates are
outside the model and make the parser fail.  The grammar follows
Python's `json.scanner`/`json.decoder`: optional whitespace around
tokens, `strict` string scanning (raw control characters rejected),
integers matching `-?(0|[1-9][0-9]*)`, surrogate pairs recombined. -/

/-- JSON whitespace as skipped by Python's json scanner. -/
def isJsonWs (c : Char) : Bool :=
  c = ' ' || c = '\t' || c = '\n' || c = '\r'

/-- Drop leading JSON whitespace. -/
def skipWs (cs : List Char) : List Char :=
  cs.dropWhile isJsonWs

/-- Combined value of four hex digits, `none` when one is not hex. -/
def hexVal4 (h1 h2 h3 h4 : Char) : Option Nat :=
  match hexVal h1, hexVal h2, hexVal h3, hexVal h4 with
  | some a, some b, some c, some d => some (((a * 16 + b) * 16 + c) * 16 + d)
  | _, _, _, _ => none

/-- One step of the string scanner: the closing quote, one decoded
character, or a scan error. -/
inductive StrStep where
  | done (rest : List Char)
  | push (c : Char) (rest : List Char)
  | fail

/-- Decode the continuation of a high surrogate `\uXXXX` escape: Python
recombines it with an immediately following low surrogate escape; a lone
surrogate would denote a string outside the embedding. -/
def strPair (n : Nat) : List Char → StrStep
  | '\\' :: 'u' :: g1 :: g2 :: g3 :: g4 :: rest4 =>
    match hexVal4 g1 g2 g3 g4 with
    | some m =>
      if 0xdc00 ≤ m ∧ m < 0xe000 then
        .push (Char.ofNat (0x10000 + (n - 0xd800) * 0x400 + (m - 0xdc00))) rest4
      else .fail
    | none => .fail
  | _ => .fail

/-- Decode a `\uXXXX` escape given the characters after the `u`. -/
def strU : List Char → StrStep
  | h1 :: h2 :: h3 :: h4 :: rest3 =>
    match hexVal4 h1 h2 h3 h4 with
    | some n =>
      if 0xd800 ≤ n ∧ n < 0xdc00 then strPair n rest3
      else if 0xdc00 ≤ n ∧ n < 0xe000 then .fail
      else .push (Char.ofNat n) rest3
    | none => .fail
  | _ => .fail

/-- Decode a backslash escape given the characters after the backslash. -/
def strEsc (input : List Char) : StrStep :=
  match input.head? with
  | none => .fail
  | some e =>
    if e = '"' then .push '"' input.tail
    else if e = '\\' then .push '\\' input.tail
    else if e = '/' then .push '/' input.tail
    else if e = 'b' then .push '\x08' input.tail
    else if e = 'f' then .push '\x0c' input.tail
    else if e = 'n' then .push '\n' input.tail
    else if e = 'r' then .push '\r' input.tail
    else if e = 't' then .push '\t' input.tail
    else if e = 'u' then strU input.tail
    else .fail

/-- One step of `py_scanstring` with `strict=True` (raw control
characters are rejected). -/
def strStep (input : List Char) : StrStep :=
  match input.head? with
  | none => .fail
  | some c =>
    if c = '"' then .done input.tail
    else if c = '\\' then strEsc input.tail
    else if c.toNat < 0x20 then .fail
    else .push c input.tail

/-- String scanner (`py_scanstring` with `strict=True`): called after the
opening quote, accumulates decoded characters in reverse.  Python's
scanner terminates because every step consumes input; here the fuel
argument plays that role and callers supply more fuel than the input
length. -/
def parseStr : Nat → List Char → List Char → Option (String × List Char)
  | 0, _, _ => none
  | fuel + 1, acc, input =>
    match strStep input with
    | .done rest => some (String.mk acc.reverse, rest)
    | .push c rest => parseStr fuel (c :: acc) rest
    | .fail => none

/-- Integer scanner: the integer part of Python's `NUMBER_RE`
(`-?(0|[1-9][0-9]*)`); a following `.`/`e`/`E` would start a float,
which is outside the embedding. -/
def parseNum (input : List Char) : Option (Nat × List Char) :=
  match input.head? with
  | none => none
  | some c =>
    if ¬ c.isDigit then none
    else
      let p : List Char × List Char :=
        if c = '0' then ([c], input.tail)
        else (input.takeWhile Char.isDigit, input.dropWhile Char.isDigit)
      if p.2.head? = some '.' ∨ p.2.head? = some 'e' ∨ p.2.head? = some 'E' then none
      else some (decVal p.1, p.2)

mutual

/-- Value scanner (`json.scanner.py_make_scanner`), with fuel. -/
def parseVal : Nat → List Char → Option (Json × List Char)
  | 0, _ => none
  | fuel + 1, input =>
    match skipWs input with
    | [] => none
    | c :: rest =>
      if c = '"' then (parseStr (rest.length + 1) [] rest).map (fun p => (.str p.1, p.2))
      else if c = '\x7b' then
        let r := skipWs rest
        if r.head? = some '\x7d' then some (.obj [], r.tail)
        else (parseMembers fuel r).map (fun p => (.obj p.1, p.2))
      else if c = '[' then
        let r := skipWs rest
        if r.head? = some ']' then some (.arr [], r.tail)
        else (parseElems fuel r).map (fun p => (.arr p.1, p.2))
      else if c = 't' then
        match rest with
        | 'r' :: 'u' :: 'e' :: r => some (.bool true, r)
        | _ => none
      else if c = 'f' then
        match rest with
        | 'a' :: 'l' :: 's' :: 'e' :: r => some (.bool false, r)
        | _ => none
      else if c = 'n' then
        match rest with
        | 'u' :: 'l' :: 'l' :: r => some (.null, r)
        | _ => none
      else if c = '-' then (parseNum rest).map (fun p => (.num (-(p.1 : Int)), p.2))
      else if c.isDigit then (parseNum (c :: rest)).map (fun p => (.num (p.1 : Int), p.2))
      else none

/-- Scanner for the members of a nonempty object. -/
def parseMembers : Nat → List Char → Option (List (String × Json) × List Char)
  | 0, _ => none
  | fuel + 1, input =>
    match skipWs input with
    | '"' :: rest =>
      (parseStr (rest.length + 1) [] rest).bind fun p =>
        match skipWs p.2 with
        | ':' :: r2 =>
          (parseVal fuel r2).bind fun q =>
            match skipWs q.2 with
            | ',' :: r4 => (parseMembers fuel r4).map (fun t => ((p.1, q.1) :: t.1, t.2))
            | '\x7d' :: r4 => some ([(p.1, q.1)], r4)
            | _ => none
        | _ => none
    | _ => none

/-- Scanner for the elements of a nonempty array. -/
def parseElems : Nat → List Char → Option (List Json × List Char)
  | 0, _ => none
  | fuel + 1, input =>
    (parseVal fuel input).bind fun q =>
      match skipWs q.2 with
      | ',' :: r4 => (parseElems fuel r4).map (fun t => (q.1 :: t.1, t.2))
      | ']' :: r4 => some ([q.1], r4)
      | _ => none

end

/-- `json.loads` on a whole document: parse one value, then require only
trailing whitespace (otherwise Python reports "Extra data"). -/
def loads (cs : List Char) : Option Json :=
  match parseVal (cs.length + 1) cs with
  | some (v, rest) => if skipWs rest = [] then some v else none
  | none => none

/-! ## Round-trip lemmas: strings -/

theorem hexVal_hexDigitChar {n : Nat} (h : n < 16) : hexVal (hexDigitChar n) = some n := by
  interval_cases n <;> decide

theorem hexVal4_hex4 {n : Nat} (h : n < 65536) :
    hexVal4 (hexDigitChar (n / 4096 % 16)) (hexDigitChar (n / 256 % 16))
      (hexDigitChar (n / 16 % 16)) (hexDigitChar (n % 16)) = some n := by
  unfold hexVal4
  rw [hexVal_hexDigitChar (Nat.mod_lt _ (by omega)),
      hexVal_hexDigitChar (Nat.mod_lt _ (by omega)),
      hexVal_hexDigitChar (Nat.mod_lt _ (by omega)),
      hexVal_hexDigitChar (Nat.mod_lt _ (by omega))]
  simp only [Option.some.injEq]
  omega

theorem char_valid_nat (c : Char) :
    c.toNat < 0xd800 ∨ (0xdfff < c.toNat ∧ c.toNat < 0x110000) :=
  c.valid

theorem parseStr_done {input rest acc : List Char} {fuel : Nat}
    (h : strStep input = .done rest) :
    parseStr (fuel + 1) acc input = some (String.mk acc.reverse, rest) := by
  simp only [parseStr, h]

theorem parseStr_push {input rest acc : List Char} {c : Char} {fuel : Nat}
    (h : strStep input = .push c rest) :
    parseStr (fuel + 1) acc input = parseStr fuel (c :: acc) rest := by
  simp only [parseStr, h]

theorem strStep_quote (rest : List Char) : strStep ('"' :: rest) = .done rest := by
  simp [strStep]

theorem strStep_backslash (l : List Char) : strStep ('\\' :: l) = strEsc l := by
  simp +decide [strStep]

theorem strEsc_u (l : List Char) : strEsc ('u' :: l) = strU l := by
  simp +decide [strEsc]

theorem strU_hex4 {m : Nat} (hm : m < 65536) (rest3 : List Char) :
    strU (hex4 m ++ rest3) =
      if 0xd800 ≤ m ∧ m < 0xdc00 then strPair m rest3
      else if 0xdc00 ≤ m ∧ m < 0xe000 then .fail
      else .push (Char.ofNat m) rest3 := by
  simp only [hex4, List.cons_append, List.nil_append, strU]
  rw [hexVal4_hex4 hm]

theorem strPair_hex4 {n m : Nat} (hm : m < 65536) (rest4 : List Char) :
    strPair n ('\\' :: 'u' :: (hex4 m ++ rest4)) =
      if 0xdc00 ≤ m ∧ m < 0xe000 then
        .push (Char.ofNat (0x10000 + (n - 0xd800) * 0x400 + (m - 0xdc00))) rest4
      else .fail := by
  simp only [hex4, List.cons_append, List.nil_append, strPair]
  rw [hexVal4_hex4 hm]

/-- The escape written for a character scans back to exactly that
character: the central fact behind the string round trip. -/
theorem strStep_escapeChar (c : Char) (rest : List Char) :
    strStep (escapeChar c ++ rest) = .push c rest := by
  have hval := char_valid_nat c
  unfold escapeChar
  by_cases h1 : c = '\\'
  · subst h1; simp +decide [strStep, strEsc]
  · rw [if_neg h1]
    by_cases h2 : c = '"'
    · subst h2; simp +decide [strStep, strEsc]
    · rw [if_neg h2]
      by_cases h3 : c = '\x08'
      · subst h3; simp +decide [strStep, strEsc]
      · rw [if_neg h3]
        by_cases h4 : c = '\x0c'
        · subst h4; simp +decide [strStep, strEsc]
        · rw [if_neg h4]
          by_cases h5 : c = '\n'
          · subst h5; simp +decide [strStep, strEsc]
          · rw [if_neg h5]
            by_cases h6 : c = '\r'
            · subst h6; simp +decide [strStep, strEsc]
            · rw [if_neg h6]
              by_cases h7 : c = '\t'
              · subst h7; simp +decide [strStep, strEsc]
              · rw [if_neg h7]
                by_cases h8 : 0x20 ≤ c.toNat ∧ c.toNat ≤ 0x7e
                · rw [if_pos h8]
                  simp only [List.cons_append, List.nil_append, strStep,
                    List.head?_cons, List.tail_cons]
                  rw [if_neg h2, if_neg h1, if_neg (by omega)]
                · rw [if_neg h8]
                  by_cases h9 : c.toNat < 0x10000
                  · rw [if_pos h9]
                    rw [List.cons_append, List.cons_append, strStep_backslash, strEsc_u,
                        strU_hex4 h9]
                    rw [if_neg (by rcases hval with hv | hv <;> omega),
                        if_neg (by rcases hval with hv | hv <;> omega),
                        Char.ofNat_toNat]
                  · rw [if_neg h9]
                    rcases hval with hv | hv
                    · omega
                    · rw [List.append_assoc, List.cons_append, List.cons_append,
                          strStep_backslash, strEsc_u, List.cons_append, List.cons_append,
                          strU_hex4 (by omega)]
                      rw [if_pos (by omega), strPair_hex4 (by omega), if_pos (by omega)]
                      have harith :
                          0x10000 + (0xd800 + (c.toNat - 0x10000) / 0x400 - 0xd800) * 0x400 +
                            (0xdc00 + (c.toNat - 0x10000) % 0x400 - 0xdc00) = c.toNat := by
                        omega
                      rw [harith, Char.ofNat_toNat]

theorem parseStr_escList (cs : List Char) : ∀ (fuel : Nat) (acc rest : List Char),
    cs.length < fuel →
    parseStr fuel acc (escList cs ++ '"' :: rest) =
      some (String.mk (acc.reverse ++ cs), rest) := by
  induction cs with
  | nil =>
    intro fuel acc rest hf
    obtain ⟨g, rfl⟩ : ∃ g, fuel = g + 1 := ⟨fuel - 1, by omega⟩
    simp only [escList, List.flatMap_nil, List.nil_append, List.append_nil]
    rw [parseStr_done (strStep_quote rest)]
  | cons c cs ih =>
    intro fuel acc rest hf
    obtain ⟨g, rfl⟩ : ∃ g, fuel = g + 1 := ⟨fuel - 1, by omega⟩
    have hesc : escList (c :: cs) = escapeChar c ++ escList cs := by
      simp [escList]
    rw [hesc, List.append_assoc, parseStr_push (strStep_escapeChar c _),
      ih g (c :: acc) rest (by simpa using Nat.lt_of_succ_lt_succ hf)]
    simp

/-- Every character contributes at least one character to its escape, so
an input-length fuel bound suffices for the string scanner. -/
theorem escList_length_ge (cs : List Char) : cs.length ≤ (escList cs).length := by
  induction cs with
  | nil => simp [escList]
  | cons c cs ih =>
    have hesc : escList (c :: cs) = escapeChar c ++ escList cs := by
      simp [escList]
    have hc : 1 ≤ (escapeChar c).length := by
      unfold escapeChar
      repeat' split
      all_goals simp
    rw [hesc]
    simp only [List.length_append, List.length_cons]
    omega

/-! ## Round-trip lemmas: numbers -/

/-- The first character of `rest` (when any) may not extend a decimal
number: in the serialized output a number is always followed by a
separator, a closing bracket, or the end of the document. -/
def numOk (cs : List Char) : Bool :=
  match cs with
  | [] => true
  | c :: _ => !(c.isDigit || c == '.' || c == 'e' || c == 'E')

theorem numOk_head_not_digit {cs : List Char} (h : numOk cs = true) :
    ∀ c, cs.head? = some c → c.isDigit = false := by
  intro c hc
  cases cs with
  | nil => simp at hc
  | cons d t =>
    simp only [List.head?_cons, Option.some.injEq] at hc
    subst hc
    simp only [numOk, Bool.not_eq_true'] at h
    simp only [Bool.or_eq_false_iff] at h
    exact h.1.1.1

theorem takeWhile_digits {l1 l2 : List Char} (h1 : ∀ c ∈ l1, c.isDigit = true)
    (h2 : numOk l2 = true) :
    (l1 ++ l2).takeWhile Char.isDigit = l1 ∧ (l1 ++ l2).dropWhile Char.isDigit = l2 := by
  induction l1 with
  | nil =>
    simp only [List.nil_append]
    cases l2 with
    | nil => simp
    | cons c t =>
      have hcf : ¬ c.isDigit = true := by
        rw [numOk_head_not_digit h2 c rfl]; simp
      exact ⟨List.takeWhile_cons_of_neg hcf, List.dropWhile_cons_of_neg hcf⟩
  | cons c t ih =>
    have hc : c.isDigit = true := h1 c (by simp)
    have ht := ih (fun d hd => h1 d (by simp [hd]))
    constructor
    · rw [List.cons_append, List.takeWhile_cons_of_pos hc, ht.1]
    · rw [List.cons_append, List.dropWhile_cons_of_pos hc, ht.2]

theorem numOk_marker {l2 : List Char} (h : numOk l2 = true) :
    ¬ (l2.head? = some '.' ∨ l2.head? = some 'e' ∨ l2.head? = some 'E') := by
  cases l2 with
  | nil => simp
  | cons c t =>
    simp only [numOk, Bool.not_eq_true'] at h
    simp only [Bool.or_eq_false_iff, beq_eq_false_iff_ne] at h
    simp only [List.head?_cons, Option.some.injEq]
    push_neg
    refine ⟨fun hh => ?_, fun hh => ?_, fun hh => ?_⟩
    · exact h.1.1.2 hh
    · exact h.1.2 hh
    · exact h.2 hh

theorem parseNum_natDigits (n : Nat) (rest : List Char) (h : numOk rest = true) :
    parseNum (natDigits n ++ rest) = some (n, rest) := by
  rcases Nat.eq_zero_or_pos n with hn | hn
  · subst hn
    have h0 : natDigits 0 = ['0'] := by decide
    rw [h0]
    simp +decide only [parseNum, List.cons_append, List.nil_append,
      List.head?_cons, List.tail_cons, if_true, if_false]
    rw [if_neg (numOk_marker h)]
    have : decVal ['0'] = 0 := by decide
    rw [this]
  · obtain ⟨c, cs, heq, hne, hd⟩ := natDigits_head_ne_zero hn
    rw [heq]
    simp only [List.cons_append, parseNum, List.head?_cons, List.tail_cons]
    rw [if_neg (by simp [hd])]
    have hall : ∀ d ∈ c :: cs, d.isDigit = true := by
      rw [← heq]; exact natDigits_all_digits n
    have htw := takeWhile_digits hall h
    simp only [List.cons_append] at htw
    simp only [if_neg hne, htw.1, htw.2]
    rw [if_neg (numOk_marker h)]
    have hv : decVal (c :: cs) = n := by rw [← heq]; exact decVal_natDigits n
    rw [hv]

/-! ## Round-trip lemmas: whitespace and first characters -/

theorem skipWs_cons_false {c : Char} (h : isJsonWs c = false) (l : List Char) :
    skipWs (c :: l) = c :: l :=
  List.dropWhile_cons_of_neg (by simp [h])

theorem skipWs_space (l : List Char) : skipWs (' ' :: l) = skipWs l :=
  List.dropWhile_cons_of_pos (by decide)

theorem parseVal_space (f : Nat) (l : List Char) :
    parseVal f (' ' :: l) = parseVal f l := by
  cases f with
  | zero => simp [parseVal]
  | succ g => simp only [parseVal, skipWs_space]

theorem parseElems_space (f : Nat) (l : List Char) :
    parseElems f (' ' :: l) = parseElems f l := by
  cases f with
  | zero => simp [parseElems]
  | succ g => simp only [parseElems, parseVal_space]

theorem parseMembers_space (f : Nat) (l : List Char) :
    parseMembers f (' ' :: l) = parseMembers f l := by
  cases f with
  | zero => simp [parseMembers]
  | succ g => simp only [parseMembers, skipWs_space]

theorem isDigit_toNat {c : Char} (h : c.isDigit = true) :
    48 ≤ c.toNat ∧ c.toNat ≤ 57 := by
  simp only [Char.isDigit, Bool.and_eq_true, decide_eq_true_eq, ge_iff_le] at h
  exact ⟨UInt32.le_toNat_of_le (by norm_num) h.1, UInt32.toNat_le_of_le (by norm_num) h.2⟩

theorem digit_first_ok {c : Char} (hd : c.isDigit = true) :
    isJsonWs c = false ∧ c ≠ ']' ∧ c ≠ '\x7d' := by
  have hb := isDigit_toNat hd
  refine ⟨?_, fun hc => absurd (hc ▸ hb) (by decide), fun hc => absurd (hc ▸ hb) (by decide)⟩
  unfold isJsonWs
  by_contra hc
  simp only [Bool.not_eq_false, Bool.or_eq_true, decide_eq_true_eq] at hc
  rcases hc with ((h | h) | h) | h <;> subst h <;> exact absurd hb (by decide)

/-- In serialized output a value never begins with whitespace or with a
closing bracket. -/
theorem serVal_head (v : Json) :
    ∃ c cs, serVal v = c :: cs ∧ isJsonWs c = false ∧ c ≠ ']' ∧ c ≠ '\x7d' := by
  cases v with
  | null => exact ⟨'n', _, rfl, by decide, by decide, by decide⟩
  | bool b =>
    cases b with
    | false => exact ⟨'f', _, rfl, by decide, by decide, by decide⟩
    | true => exact ⟨'t', _, rfl, by decide, by decide, by decide⟩
  | num i =>
    simp only [serVal, intToDec]
    by_cases hi : i < 0
    · rw [if_pos hi]
      exact ⟨'-', _, rfl, by decide, by decide, by decide⟩
    · rw [if_neg hi]
      rcases hnn : natDigits i.natAbs with _ | ⟨c, cs⟩
      · exact absurd hnn (natDigits_ne_nil _)
      · have hd : c.isDigit = true := natDigits_all_digits _ c (by rw [hnn]; simp)
        obtain ⟨hw, h1, h2⟩ := digit_first_ok hd
        exact ⟨c, cs, rfl, hw, h1, h2⟩
  | str s => exact ⟨'"', _, rfl, by decide, by decide, by decide⟩
  | arr xs => exact ⟨'[', _, rfl, by decide, by decide, by decide⟩
  | obj kvs => exact ⟨'\x7b', _, rfl, by decide, by decide, by decide⟩

theorem serVal_length_pos (v : Json) : 1 ≤ (serVal v).length := by
  obtain ⟨c, cs, heq, -, -, -⟩ := serVal_head v
  rw [heq]
  simp

/-! ## Round-trip: the basic constructors -/

theorem parseVal_null (f : Nat) (rest : List Char) :
    parseVal (f + 1) (serVal .null ++ rest) = some (.null, rest) := by
  simp only [serVal, List.cons_append, List.nil_append, parseVal]
  rw [skipWs_cons_false (by decide)]
  simp +decide only [if_true, if_false]

theorem parseVal_bool (f : Nat) (b : Bool) (rest : List Char) :
    parseVal (f + 1) (serVal (.bool b) ++ rest) = some (.bool b, rest) := by
  cases b with
  | false =>
    simp +decide only [serVal, if_true, if_false, List.cons_append, List.nil_append, parseVal]
    rw [skipWs_cons_false (by decide)]
    simp +decide only [if_true, if_false]
  | true =>
    simp +decide only [serVal, if_true, if_false, List.cons_append, List.nil_append, parseVal]
    rw [skipWs_cons_false (by decide)]
    simp +decide only [if_true, if_false]

theorem parseVal_num (f : Nat) (i : Int) (rest : List Char) (h : numOk rest = true) :
    parseVal (f + 1) (serVal (.num i) ++ rest) = some (.num i, rest) := by
  simp only [serVal, intToDec]
  by_cases hi : i < 0
  · rw [if_pos hi]
    simp only [List.cons_append, parseVal]
    rw [skipWs_cons_false (by decide)]
    simp +decide only [if_true, if_false]
    rw [parseNum_natDigits _ _ h]
    simp only [Option.map_some']
    have harith : -((i.natAbs : Int)) = i := by omega
    rw [harith]
  · rw [if_neg hi]
    rcases hnn : natDigits i.natAbs with _ | ⟨c, cs⟩
    · exact absurd hnn (natDigits_ne_nil _)
    · have hd : c.isDigit = true := natDigits_all_digits _ c (by rw [hnn]; simp)
      have hb := isDigit_toNat hd
      have hw := (digit_first_ok hd).1
      simp only [List.cons_append, parseVal]
      rw [skipWs_cons_false hw]
      simp only [ne_eq]
      rw [if_neg (fun hc => absurd (hc ▸ hb) (by decide)),
          if_neg (fun hc => absurd (hc ▸ hb) (by decide)),
          if_neg (fun hc => absurd (hc ▸ hb) (by decide)),
          if_neg (fun hc => absurd (hc ▸ hb) (by decide)),
          if_neg (fun hc => absurd (hc ▸ hb) (by decide)),
          if_neg (fun hc => absurd (hc ▸ hb) (by decide)),
          if_neg (fun hc => absurd (hc ▸ hb) (by decide)),
          if_pos hd]
      rw [← List.cons_append, ← hnn, parseNum_natDigits _ _ h]
      simp only [Option.map_some']
      have harith : ((i.natAbs : Nat) : Int) = i := by omega
      rw [harith]

theorem parseVal_str (f : Nat) (s : String) (rest : List Char) :
    parseVal (f + 1) (serVal (.str s) ++ rest) = some (.str s, rest) := by
  simp only [serVal, List.cons_append, List.append_assoc, List.cons_append,
    List.nil_append, parseVal]
  rw [skipWs_cons_false (by decide)]
  simp +decide only [if_true, if_false]
  rw [parseStr_escList s.data _ [] rest ?hf]
  case hf =>
    have h1 := escList_length_ge s.data
    simp only [List.length_append, List.length_cons]
    omega
  simp only [Option.map_some', List.reverse_nil, List.nil_append]

theorem parseVal_arr_nil (f : Nat) (rest : List Char) :
    parseVal (f + 1) (serVal (.arr []) ++ rest) = some (.arr [], rest) := by
  simp only [serVal, serElems, List.cons_append, List.nil_append, parseVal]
  rw [skipWs_cons_false (by decide)]
  simp +decide only [if_true, if_false]
  rw [skipWs_cons_false (by decide)]
  simp +decide only [if_true, if_false, List.head?_cons, List.tail_cons]

theorem parseVal_obj_nil (f : Nat) (rest : List Char) :
    parseVal (f + 1) (serVal (.obj []) ++ rest) = some (.obj [], rest) := by
  simp only [serVal, serMembers, List.cons_append, List.nil_append, parseVal]
  rw [skipWs_cons_false (by decide)]
  simp +decide only [if_true, if_false]
  rw [skipWs_cons_false (by decide)]
  simp +decide only [if_true, if_false, List.head?_cons, List.tail_cons]

/-! ## Round-trip: the main induction -/

theorem serElems_shape (x : Json) (r : List Json) :
    ∃ t, serElems (x :: r) = serVal x ++ t := by
  cases r with
  | nil => exact ⟨[], by simp [serElems]⟩
  | cons y r2 => exact ⟨',' :: ' ' :: serElems (y :: r2), by simp [serElems]⟩

theorem serMembers_shape (kv : String × Json) (r : List (String × Json)) :
    ∃ t, serMembers (kv :: r) =
      '"' :: (escList kv.1.data ++ '"' :: ':' :: ' ' :: (serVal kv.2 ++ t)) := by
  cases r with
  | nil =>
    exact ⟨[], by simp [serMembers, List.cons_append, List.append_assoc]⟩
  | cons kv2 r2 =>
    exact ⟨',' :: ' ' :: serMembers (kv2 :: r2),
      by simp [serMembers, List.cons_append, List.append_assoc]⟩

/-- Parsing inverts serialization.  The three conjuncts cover values,
nonempty array element lists, and nonempty object member lists; the fuel
bound matches the serialized length. -/
theorem parse_ser (fuel : Nat) :
    (∀ (v : Json) (rest : List Char), (serVal v).length ≤ fuel → numOk rest = true →
       parseVal fuel (serVal v ++ rest) = some (v, rest)) ∧
    (∀ (xs : List Json) (rest : List Char), xs ≠ [] → (serElems xs).length + 1 ≤ fuel →
       parseElems fuel (serElems xs ++ ']' :: rest) = some (xs, rest)) ∧
    (∀ (kvs : List (String × Json)) (rest : List Char), kvs ≠ [] →
       (serMembers kvs).length + 1 ≤ fuel →
       parseMembers fuel (serMembers kvs ++ '\x7d' :: rest) = some (kvs, rest)) := by
  induction fuel using Nat.strong_induction_on with
  | _ fuel ih =>
    refine ⟨?_, ?_, ?_⟩
    · intro v rest hlen hok
      obtain ⟨f, rfl⟩ : ∃ f, fuel = f + 1 :=
        ⟨fuel - 1, by have := serVal_length_pos v; omega⟩
      cases v with
      | null => exact parseVal_null f rest
      | bool b => exact parseVal_bool f b rest
      | num i => exact parseVal_num f i rest hok
      | str s => exact parseVal_str f s rest
      | arr xs =>
        cases xs with
        | nil => exact parseVal_arr_nil f rest
        | cons x r =>
          obtain ⟨c, cs, hx, hw, hrb, -⟩ := serVal_head x
          have hlen2 : (serVal (.arr (x :: r))).length = (serElems (x :: r)).length + 2 := by
            simp [serVal]
          simp only [serVal, List.cons_append, List.append_assoc, List.nil_append, parseVal]
          rw [skipWs_cons_false (by decide)]
          simp +decide only [if_true, if_false]
          obtain ⟨tl, htl⟩ : ∃ tl, serElems (x :: r) ++ ']' :: rest = c :: tl := by
            obtain ⟨t, ht⟩ := serElems_shape x r
            rw [ht, hx]
            simp only [List.cons_append, List.append_assoc]
            exact ⟨_, rfl⟩
          rw [htl, skipWs_cons_false hw]
          simp only [List.head?_cons]
          rw [if_neg (by simp [hrb]), ← htl,
              (ih f (by omega)).2.1 (x :: r) rest (by simp) (by omega)]
          simp only [Option.map_some']
      | obj kvs =>
        cases kvs with
        | nil => exact parseVal_obj_nil f rest
        | cons kv r =>
          have hlen2 : (serVal (.obj (kv :: r))).length = (serMembers (kv :: r)).length + 2 := by
            simp [serVal]
          simp only [serVal, List.cons_append, List.append_assoc, List.nil_append, parseVal]
          rw [skipWs_cons_false (by decide)]
          simp +decide only [if_true, if_false]
          obtain ⟨tl, htl⟩ : ∃ tl, serMembers (kv :: r) ++ '\x7d' :: rest = '"' :: tl := by
            obtain ⟨t, ht⟩ := serMembers_shape kv r
            rw [ht]
            simp only [List.cons_append, List.append_assoc]
            exact ⟨_, rfl⟩
          rw [htl, skipWs_cons_false (by decide)]
          simp only [List.head?_cons]
          rw [if_neg (by decide), ← htl,
              (ih f (by omega)).2.2 (kv :: r) rest (by simp) (by omega)]
          simp only [Option.map_some']
    · intro xs rest hne hlen
      cases xs with
      | nil => exact absurd rfl hne
      | cons x r =>
        obtain ⟨g, rfl⟩ : ∃ g, fuel = g + 1 := ⟨fuel - 1, by omega⟩
        have hA := (ih g (by omega)).1
        have hB := (ih g (by omega)).2.1
        have hxpos := serVal_length_pos x
        cases r with
        | nil =>
          have hsl : (serElems [x]).length = (serVal x).length := by
            simp [serElems]
          simp only [parseElems, serElems, List.append_nil, List.append_assoc]
          rw [hA x (']' :: rest) (by omega) (by rfl)]
          simp only [Option.some_bind]
          rw [skipWs_cons_false (by decide)]
          simp +decide only [if_true, if_false]
        | cons y r2 =>
          have hsl : (serElems (x :: y :: r2)).length =
              (serVal x).length + 2 + (serElems (y :: r2)).length := by
            simp [serElems]
            omega
          simp only [parseElems, serElems, List.cons_append, List.append_assoc]
          rw [hA x _ (by omega) (by rfl)]
          simp only [Option.some_bind]
          rw [skipWs_cons_false (by decide)]
          simp +decide only [if_true, if_false]
          rw [parseElems_space, hB (y :: r2) rest (by simp) (by omega)]
          simp only [Option.map_some']
    · intro kvs rest hne hlen
      cases kvs with
      | nil => exact absurd rfl hne
      | cons kv r =>
        obtain ⟨g, rfl⟩ : ∃ g, fuel = g + 1 := ⟨fuel - 1, by omega⟩
        have hA := (ih g (by omega)).1
        have hC := (ih g (by omega)).2.2
        have hvpos := serVal_length_pos kv.2
        have hkey := escList_length_ge kv.1.data
        cases r with
        | nil =>
          have hsl : (serMembers [kv]).length =
              (escList kv.1.data).length + 4 + (serVal kv.2).length := by
            simp [serMembers]
            omega
          simp only [parseMembers, serMembers, List.append_nil, List.cons_append,
            List.append_assoc]
          rw [skipWs_cons_false (by decide)]
          simp +decide only [if_true, if_false]
          rw [parseStr_escList kv.1.data _ [] _ (by
            simp only [List.length_append, List.length_cons]
            omega)]
          simp only [Option.some_bind, List.reverse_nil, List.nil_append]
          rw [skipWs_cons_false (by decide)]
          simp +decide only [if_true, if_false]
          rw [parseVal_space, hA kv.2 _ (by omega) (by rfl)]
          simp only [Option.some_bind]
          rw [skipWs_cons_false (by decide)]
          simp +decide only [if_true, if_false]
        | cons kv2 r2 =>
          have hsl : (serMembers (kv :: kv2 :: r2)).length =
              (escList kv.1.data).length + 6 + (serVal kv.2).length +
                (serMembers (kv2 :: r2)).length := by
            simp [serMembers]
            omega
          simp only [parseMembers, serMembers, List.cons_append, List.append_assoc]
          rw [skipWs_cons_false (by decide)]
          simp +decide only [if_true, if_false]
          rw [parseStr_escList kv.1.data _ [] _ (by
            simp only [List.length_append, List.length_cons]
            omega)]
          simp only [Option.some_bind, List.reverse_nil, List.nil_append]
          rw [skipWs_cons_false (by decide)]
          simp +decide only [if_true, if_false]
          rw [parseVal_space, hA kv.2 _ (by omega) (by rfl)]
          simp only [Option.some_bind]
          rw [skipWs_cons_false (by decide)]
          simp +decide only [if_true, if_false]
          rw [parseMembers_space, hC (kv2 :: r2) rest (by simp) (by omega)]
          simp only [Option.map_some']

/-- `json.loads` of a serialized document on its own gives the document
back. -/
theorem loads_serVal (v : Json) : loads (serVal v) = some v := by
  unfold loads
  have h := (parse_ser ((serVal v).length + 1)).1 v [] (by omega) (by rfl)
  rw [List.append_nil] at h
  rw [h]
  simp [skipWs]

/-! ## The serialized form is pure ASCII

`json.dumps` runs with `ensure_ascii=True`, so the character count the
writer measures with `len` equals the UTF-8 byte count on the wire. -/

theorem hexDigitChar_ascii {n : Nat} (h : n < 16) : (hexDigitChar n).toNat < 128 := by
  interval_cases n <;> decide

theorem hex4_ascii (m : Nat) : ∀ c ∈ hex4 m, c.toNat < 128 := by
  intro c hc
  simp only [hex4, List.mem_cons, List.mem_singleton, List.not_mem_nil, or_false] at hc
  rcases hc with rfl | rfl | rfl | rfl <;>
    exact hexDigitChar_ascii (Nat.mod_lt _ (by omega))

theorem escapeChar_ascii (c : Char) : ∀ d ∈ escapeChar c, d.toNat < 128 := by
  intro d hd
  unfold escapeChar at hd
  repeat' split at hd
  all_goals
    simp only [List.mem_cons, List.mem_singleton, List.not_mem_nil, or_false,
      List.mem_append] at hd
  · rcases hd with rfl | rfl <;> decide
  · rcases hd with rfl | rfl <;> decide
  · rcases hd with rfl | rfl <;> decide
  · rcases hd with rfl | rfl <;> decide
  · rcases hd with rfl | rfl <;> decide
  · rcases hd with rfl | rfl <;> decide
  · rcases hd with rfl | rfl <;> decide
  · next h8 _ =>
    subst hd
    omega
  · rcases hd with rfl | rfl | hd
    · decide
    · decide
    · exact hex4_ascii _ d hd
  · rcases hd with (rfl | rfl | hd) | (rfl | rfl | hd)
    · decide
    · decide
    · exact hex4_ascii _ d hd
    · decide
    · decide
    · exact hex4_ascii _ d hd

theorem escList_ascii (cs : List Char) : ∀ d ∈ escList cs, d.toNat < 128 := by
  intro d hd
  simp only [escList, List.mem_flatMap] at hd
  obtain ⟨c, -, hc⟩ := hd
  exact escapeChar_ascii c d hc

theorem natDigits_ascii (n : Nat) : ∀ c ∈ natDigits n, c.toNat < 128 := by
  intro c hc
  have := isDigit_toNat (natDigits_all_digits n c hc)
  omega

theorem intToDec_ascii (i : Int) : ∀ c ∈ intToDec i, c.toNat < 128 := by
  intro c hc
  unfold intToDec at hc
  split at hc
  · rcases List.mem_cons.mp hc with rfl | hc
    · decide
    · exact natDigits_ascii _ c hc
  · exact natDigits_ascii _ c hc

/-- Every character of a serialized document is ASCII.  The staggered
fuel bounds mirror `parse_ser`. -/
theorem ser_ascii (n : Nat) :
    (∀ v : Json, (serVal v).length ≤ n → ∀ c ∈ serVal v, c.toNat < 128) ∧
    (∀ xs : List Json, (serElems xs).length + 1 ≤ n → ∀ c ∈ serElems xs, c.toNat < 128) ∧
    (∀ kvs : List (String × Json), (serMembers kvs).length + 1 ≤ n →
       ∀ c ∈ serMembers kvs, c.toNat < 128) := by
  induction n using Nat.strong_induction_on with
  | _ n ih =>
    refine ⟨?_, ?_, ?_⟩
    · intro v hlen c hc
      cases v with
      | null =>
        simp only [serVal, List.mem_cons, List.not_mem_nil, or_false] at hc
        rcases hc with rfl | rfl | rfl | rfl <;> decide
      | bool b =>
        cases b with
        | false =>
          simp +decide only [serVal, if_true, if_false, List.mem_cons,
            List.not_mem_nil, or_false] at hc
          rcases hc with rfl | rfl | rfl | rfl | rfl <;> decide
        | true =>
          simp +decide only [serVal, if_true, if_false, List.mem_cons,
            List.not_mem_nil, or_false] at hc
          rcases hc with rfl | rfl | rfl | rfl <;> decide
      | num i =>
        simp only [serVal] at hc
        exact intToDec_ascii i c hc
      | str s =>
        simp only [serVal] at hc
        rcases List.mem_cons.mp hc with rfl | hc
        · decide
        · rcases List.mem_append.mp hc with hc | hc
          · exact escList_ascii _ c hc
          · simp only [List.mem_singleton] at hc
            subst hc
            decide
      | arr xs =>
        have hl : (serVal (.arr xs)).length = (serElems xs).length + 2 := by
          simp [serVal]
        simp only [serVal] at hc
        rcases List.mem_cons.mp hc with rfl | hc
        · decide
        · rcases List.mem_append.mp hc with hc | hc
          · exact (ih (n - 1) (by omega)).2.1 xs (by omega) c hc
          · simp only [List.mem_singleton] at hc
            subst hc
            decide
      | obj kvs =>
        have hl : (serVal (.obj kvs)).length = (serMembers kvs).length + 2 := by
          simp [serVal]
        simp only [serVal] at hc
        rcases List.mem_cons.mp hc with rfl | hc
        · decide
        · rcases List.mem_append.mp hc with hc | hc
          · exact (ih (n - 1) (by omega)).2.2 kvs (by omega) c hc
          · simp only [List.mem_singleton] at hc
            subst hc
            decide
    · intro xs hlen c hc
      cases xs with
      | nil => simp [serElems] at hc
      | cons x r =>
        have hxpos := serVal_length_pos x
        cases r with
        | nil =>
          have hsl : serElems [x] = serVal x := by simp [serElems]
          rw [hsl] at hc hlen
          exact (ih (n - 1) (by omega)).1 x (by omega) c hc
        | cons y r2 =>
          have hsl : serElems (x :: y :: r2) =
              serVal x ++ ',' :: ' ' :: serElems (y :: r2) := by
            simp [serElems]
          rw [hsl] at hc hlen
          simp only [List.length_append, List.length_cons] at hlen
          rcases List.mem_append.mp hc with hc | hc
          · exact (ih (n - 1) (by omega)).1 x (by omega) c hc
          · rcases List.mem_cons.mp hc with rfl | hc
            · decide
            · rcases List.mem_cons.mp hc with rfl | hc
              · decide
              · exact (ih (n - 1) (by omega)).2.1 (y :: r2) (by omega) c hc
    · intro kvs hlen c hc
      cases kvs with
      | nil => simp [serMembers] at hc
      | cons kv r =>
        have hvpos := serVal_length_pos kv.2
        cases r with
        | nil =>
          have hsl : serMembers [kv] =
              '"' :: (escList kv.1.data ++ '"' :: ':' :: ' ' :: serVal kv.2) := by
            simp [serMembers, List.cons_append, List.append_assoc]
          rw [hsl] at hc hlen
          simp only [List.length_append, List.length_cons] at hlen
          rcases List.mem_cons.mp hc with rfl | hc
          · decide
          · rcases List.mem_append.mp hc with hc | hc
            · exact escList_ascii _ c hc
            · rcases List.mem_cons.mp hc with rfl | hc
              · decide
              · rcases List.mem_cons.mp hc with rfl | hc
                · decide
                · rcases List.mem_cons.mp hc with rfl | hc
                  · decide
                  · exact (ih (n - 1) (by omega)).1 kv.2 (by omega) c hc
        | cons kv2 r2 =>
          have hsl : serMembers (kv :: kv2 :: r2) =
              '"' :: (escList kv.1.data ++ '"' :: ':' :: ' ' ::
                (serVal kv.2 ++ ',' :: ' ' :: serMembers (kv2 :: r2))) := by
            simp [serMembers, List.cons_append, List.append_assoc]
          rw [hsl] at hc hlen
          simp only [List.length_append, List.length_cons] at hlen
          rcases List.mem_cons.mp hc with rfl | hc
          · decide
          · rcases List.mem_append.mp hc with hc | hc
            · exact escList_ascii _ c hc
            · rcases List.mem_cons.mp hc with rfl | hc
              · decide
              · rcases List.mem_cons.mp hc with rfl | hc
                · decide
                · rcases List.mem_cons.mp hc with rfl | hc
                  · decide
                  · rcases List.mem_append.mp hc with hc | hc
                    · exact (ih (n - 1) (by omega)).1 kv.2 (by omega) c hc
                    · rcases List.mem_cons.mp hc with rfl | hc
                      · decide
                      · rcases List.mem_cons.mp hc with rfl | hc
                        · decide
                        · exact (ih (n - 1) (by omega)).2.2 (kv2 :: r2) (by omega) c hc


theorem charBytes_ascii {c : Char} (h : c.toNat < 128) : charBytes c = 1 := by
  unfold charBytes
  rw [if_pos (by omega)]

theorem utf8Len_eq_length {l : List Char} (h : ∀ c ∈ l, c.toNat < 128) :
    utf8Len l = l.length := by
  induction l with
  | nil => simp [utf8Len]
  | cons c t ih =>
    simp only [utf8Len, List.map_cons, List.sum_cons, List.length_cons] at *
    rw [charBytes_ascii (h c (by simp))]
    have := ih (fun d hd => h d (by simp [hd]))
    omega

/-- The character count measured by `len(encoded_message)` equals the
UTF-8 byte count of the payload. -/
theorem serVal_utf8Len (v : Json) : utf8Len (serVal v) = (serVal v).length :=
  utf8Len_eq_length ((ser_ascii ((serVal v).length)).1 v (Nat.le_refl _))

/-! ## The frame codec

`NegotiatorInterface.write` sends `"%i\n%s" % (len(dumps(value)), dumps(value))`
through `raw_write`; `NegotiatorInterface.read` reads one line, strips it,
checks `isdigit`, reads that many characters and decodes them as JSON.
The connection handles are in text mode, so the wire is modelled as a
character list. -/

/-- Whitespace stripped by Python's `str.strip` (ASCII fragment). -/
def isPyWs (c : Char) : Bool :=
  c = ' ' || c = '\t' || c = '\n' || c = '\r' || c = '\x0b' || c = '\x0c'

/-- `line.strip()`. -/
def pyStrip (cs : List Char) : List Char :=
  ((cs.dropWhile isPyWs).reverse.dropWhile isPyWs).reverse

/-- `line.isdigit()` (ASCII fragment): nonempty and all decimal digits. -/
def pyIsdigit (cs : List Char) : Bool :=
  !cs.isEmpty && cs.all Char.isDigit

/-- `handle.readline()`: everything up to and including the first newline
(or the whole stream at end of file), plus the remaining stream. -/
def readLine (wire : List Char) : List Char × List Char :=
  let pre := wire.takeWhile (fun c => c != '\n')
  let post := wire.dropWhile (fun c => c != '\n')
  (pre ++ post.take 1, post.drop 1)

/-- The two ways `read` can raise `ProtocolError`. -/
inductive ProtocolError where
  | badHeader (line : List Char)
  | badJson (raw : List Char) (err : String)
deriving DecidableEq

/-- Model of the message produced by the `json` module's decode error
(`str(e)`); the concrete Python text varies with the failure position. -/
def jsonDecodeMessage : String := "Expecting value"

/-- Model of Python's `repr` of a string: the characters between quotes
(escaping inside the repr is elided by the model). -/
def pyRepr (l : List Char) : String := "\x27" ++ String.mk l ++ "\x27"

theorem strAppend_assoc (a b c : String) : a ++ b ++ c = a ++ (b ++ c) := by
  rcases a with ⟨d1⟩
  rcases b with ⟨d2⟩
  rcases c with ⟨d3⟩
  show String.mk (d1 ++ d2 ++ d3) = String.mk (d1 ++ (d2 ++ d3))
  rw [List.append_assoc]

/-- The `compact(...)` message texts raised by `NegotiatorInterface.read`. -/
def protocolErrorMessage : ProtocolError → String
  | .badHeader line =>
      "Received invalid input from remote side! I was expecting a byte count, " ++
        "but what I got instead was the line " ++ pyRepr line ++ "!"
  | .badJson raw err =>
      "Failed to decode message from remote side as JSON! Tried to decode message " ++
        pyRepr raw ++ ". Original error: " ++ err ++ "."

def exceptDecEq {ε α : Type} [DecidableEq ε] [DecidableEq α] :
    (a b : Except ε α) → Decidable (a = b)
  | .error e, .error f =>
    if h : e = f then isTrue (by rw [h]) else isFalse (fun hh => by cases hh; exact h rfl)
  | .ok x, .ok y =>
    if h : x = y then isTrue (by rw [h]) else isFalse (fun hh => by cases hh; exact h rfl)
  | .error _, .ok _ => isFalse (fun h => Except.noConfusion h)
  | .ok _, .error _ => isFalse (fun h => Except.noConfusion h)

instance {ε α : Type} [DecidableEq ε] [DecidableEq α] : DecidableEq (Except ε α) :=
  exceptDecEq

/-- `NegotiatorInterface.read`. -/
def readFrame (wire : List Char) : Except ProtocolError (Json × List Char) :=
  let line := pyStrip (readLine wire).1
  let rest := (readLine wire).2
  if pyIsdigit line = false then .error (.badHeader line)
  else
    let numBytes := decVal line
    let encoded := rest.take numBytes
    match loads encoded with
    | some v => .ok (v, rest.drop numBytes)
    | none => .error (.badJson encoded jsonDecodeMessage)

/-- `NegotiatorInterface.write`. -/
def writeFrame (v : Json) : List Char :=
  let encoded := serVal v
  natDigits encoded.length ++ '\n' :: encoded

/-! ## Frame codec lemmas -/

theorem dropWhile_head_false {p : Char → Bool} {l : List Char}
    (h : ∀ c, l.head? = some c → p c = false) : l.dropWhile p = l := by
  cases l with
  | nil => simp
  | cons c t =>
    apply List.dropWhile_cons_of_neg
    simp [h c rfl]

theorem takeWhile_append_all {p : Char → Bool} {l1 l2 : List Char}
    (h1 : ∀ c ∈ l1, p c = true) (h2 : ∀ c, l2.head? = some c → p c = false) :
    (l1 ++ l2).takeWhile p = l1 ∧ (l1 ++ l2).dropWhile p = l2 := by
  induction l1 with
  | nil =>
    simp only [List.nil_append]
    cases l2 with
    | nil => simp
    | cons c t =>
      have hcf : ¬ p c = true := by rw [h2 c rfl]; simp
      exact ⟨List.takeWhile_cons_of_neg hcf, List.dropWhile_cons_of_neg hcf⟩
  | cons c t ih =>
    have hc : p c = true := h1 c (by simp)
    have ht := ih (fun d hd => h1 d (by simp [hd]))
    constructor
    · rw [List.cons_append, List.takeWhile_cons_of_pos hc, ht.1]
    · rw [List.cons_append, List.dropWhile_cons_of_pos hc, ht.2]

theorem digit_not_pyws {c : Char} (h : c.isDigit = true) : isPyWs c = false := by
  have hb := isDigit_toNat h
  unfold isPyWs
  by_contra hx
  simp only [Bool.not_eq_false, Bool.or_eq_true, decide_eq_true_eq] at hx
  rcases hx with ((((h1 | h1) | h1) | h1) | h1) | h1 <;> subst h1 <;>
    exact absurd hb (by decide)

theorem readLine_header {ds : List Char} (payload : List Char)
    (hds : ∀ c ∈ ds, c.isDigit = true) :
    readLine (ds ++ '\n' :: payload) = (ds ++ ['\n'], payload) := by
  have h1 : ∀ c ∈ ds, (c != '\n') = true := by
    intro c hc
    have hb := isDigit_toNat (hds c hc)
    simp only [bne_iff_ne, ne_eq]
    intro hcc
    subst hcc
    exact absurd hb (by decide)
  have h2 : ∀ c : Char, ('\n' :: payload).head? = some c → (c != '\n') = false := by
    intro c hc
    simp only [List.head?_cons, Option.some.injEq] at hc
    subst hc
    simp
  have htw := takeWhile_append_all h1 h2
  unfold readLine
  rw [htw.1, htw.2]
  simp

theorem pyStrip_digits {ds : List Char} (hds : ∀ c ∈ ds, c.isDigit = true) :
    pyStrip (ds ++ ['\n']) = ds := by
  cases ds with
  | nil => decide
  | cons d tl =>
    have hnw : ∀ c ∈ d :: tl, isPyWs c = false := fun c hc => digit_not_pyws (hds c hc)
    unfold pyStrip
    have h1 : ((d :: tl) ++ ['\n']).dropWhile isPyWs = (d :: tl) ++ ['\n'] :=
      dropWhile_head_false (by
        intro c hc
        simp only [List.cons_append, List.head?_cons, Option.some.injEq] at hc
        exact hc ▸ hnw d (by simp))
    rw [h1]
    have h2 : ((d :: tl) ++ ['\n']).reverse = '\n' :: (d :: tl).reverse := by
      simp
    rw [h2, List.dropWhile_cons_of_pos (by decide)]
    have h3 : (d :: tl).reverse.dropWhile isPyWs = (d :: tl).reverse :=
      dropWhile_head_false (by
        intro c hc
        have hmem : c ∈ (d :: tl).reverse := by
          cases hrev : (d :: tl).reverse with
          | nil => rw [hrev] at hc; simp at hc
          | cons a t2 => rw [hrev] at hc; simp at hc; simp [hc]
        exact hnw c (List.mem_reverse.mp hmem))
    rw [h3, List.reverse_reverse]

theorem pyIsdigit_natDigits (n : Nat) : pyIsdigit (natDigits n) = true := by
  unfold pyIsdigit
  have h1 : (natDigits n).isEmpty = false := by
    cases h : natDigits n with
    | nil => exact absurd h (natDigits_ne_nil n)
    | cons c t => simp
  rw [h1]
  simp only [Bool.not_false, Bool.true_and, List.all_eq_true]
  exact natDigits_all_digits n

/-- Reading a written frame recovers the value and leaves the rest of the
stream untouched. -/
theorem readFrame_writeFrame (v : Json) (extra : List Char) :
    readFrame (writeFrame v ++ extra) = .ok (v, extra) := by
  unfold writeFrame readFrame
  have hds := natDigits_all_digits (serVal v).length
  have hshape : (natDigits (serVal v).length ++ '\n' :: serVal v) ++ extra =
      natDigits (serVal v).length ++ '\n' :: (serVal v ++ extra) := by
    simp [List.append_assoc]
  rw [hshape, readLine_header _ hds]
  simp only
  rw [pyStrip_digits hds, pyIsdigit_natDigits, decVal_natDigits]
  simp only [Bool.true_eq_false, if_false]
  rw [List.take_left, List.drop_left, loads_serVal]

/-- The stripped header line seen by `read`. -/
def headerLine (wire : List Char) : List Char := pyStrip (readLine wire).1

/-- The payload characters `read` hands to `json.loads`. -/
def framePayload (wire : List Char) : List Char :=
  (readLine wire).2.take (decVal (headerLine wire))

/-- The request value of the spec's first concrete scenario:
`dict(method="ping", args=[], kw={})`. -/
def pingRequest : Json :=
  .obj [("method", .str "ping"), ("args", .arr []), ("kw", .obj [])]

/-- C1: writing a JSON value with `NegotiatorInterface.write` and reading
it back with `NegotiatorInterface.read` on the other endpoint yields a
structurally equal value and leaves the rest of the stream intact, and
the decimal byte count written in the header equals the UTF-8 byte length
of the JSON encoding.  The well-formedness hypothesis records that Python
dictionaries cannot hold duplicate keys. -/
theorem frame_roundtrip (v : Json) (extra : List Char) (hwf : wfJson v) :
    readFrame (writeFrame v ++ extra) = .ok (v, extra) ∧
    writeFrame v = natDigits (utf8Len (serVal v)) ++ '\n' :: serVal v := by
  refine ⟨readFrame_writeFrame v extra, ?_⟩
  unfold writeFrame
  rw [serVal_utf8Len]

/-- Witness for `frame_roundtrip` at the ping request with an empty tail. -/
theorem frame_roundtrip_witness :
    wfJson pingRequest ∧
      (readFrame (writeFrame pingRequest ++ []) = .ok (pingRequest, []) ∧
        writeFrame pingRequest =
          natDigits (utf8Len (serVal pingRequest)) ++ '\n' :: serVal pingRequest) :=
  ⟨by decide, frame_roundtrip pingRequest [] (by decide)⟩

/-- C5 (counterexample): feeding `read` the wire `"\n\x7b\x7d"` produces the
stripped header line `""`, which is neither "nonempty and not composed of
digits" nor a digit header followed by an invalid payload — yet read
raises `ProtocolError` (because `"".isdigit()` is false). -/
theorem read_empty_header_counterexample :
    readFrame ['\n', '\x7b', '\x7d'] = .error (.badHeader []) ∧
    ¬ (headerLine ['\n', '\x7b', '\x7d'] ≠ [] ∧
        pyIsdigit (headerLine ['\n', '\x7b', '\x7d']) = false) ∧
    pyIsdigit (headerLine ['\n', '\x7b', '\x7d']) ≠ true := by
  refine ⟨by decide, by decide, by decide⟩

/-- C5 (amended): `read` raises `ProtocolError` exactly when the stripped
header line fails Python's `isdigit` test — that is, when it is empty or
contains a non-digit — or when the payload does not parse as JSON; the
header error carries the offending line in its message, the payload error
carries the raw payload in its message, and a well-formed frame returns
the decoded value. -/
theorem read_characterization (wire : List Char) :
    ((∃ e, readFrame wire = .error e) ↔
        pyIsdigit (headerLine wire) = false ∨ loads (framePayload wire) = none) ∧
    (pyIsdigit (headerLine wire) = false →
        readFrame wire = .error (.badHeader (headerLine wire)) ∧
        ∃ pre post, protocolErrorMessage (.badHeader (headerLine wire)) =
          pre ++ pyRepr (headerLine wire) ++ post) ∧
    (pyIsdigit (headerLine wire) = true → loads (framePayload wire) = none →
        readFrame wire = .error (.badJson (framePayload wire) jsonDecodeMessage) ∧
        ∃ pre post,
          protocolErrorMessage (.badJson (framePayload wire) jsonDecodeMessage) =
            pre ++ pyRepr (framePayload wire) ++ post) ∧
    (∀ v, pyIsdigit (headerLine wire) = true → loads (framePayload wire) = some v →
        readFrame wire = .ok (v, (readLine wire).2.drop (decVal (headerLine wire)))) := by
  simp only [readFrame, framePayload, headerLine]
  by_cases hd : pyIsdigit (pyStrip (readLine wire).1) = false
  · rw [if_pos hd]
    refine ⟨⟨fun _ => .inl hd, fun _ => ⟨_, rfl⟩⟩, fun _ => ⟨rfl, ?_⟩,
      fun ht => absurd ht (by simp [hd]), fun v ht => absurd ht (by simp [hd])⟩
    exact ⟨"Received invalid input from remote side! I was expecting a byte count, " ++
      "but what I got instead was the line ", "!", rfl⟩
  · rw [if_neg hd]
    have hd' : pyIsdigit (pyStrip (readLine wire).1) = true := by
      simpa using hd
    cases hload : loads ((readLine wire).2.take (decVal (pyStrip (readLine wire).1))) with
    | none =>
      simp only [hload]
      refine ⟨⟨fun _ => .inr trivial, fun _ => ⟨_, rfl⟩⟩,
        fun hf => absurd hf (by simp [hd']), fun _ _ => ⟨trivial, ?_⟩,
        fun v _ hv => Option.noConfusion hv⟩
      exact ⟨"Failed to decode message from remote side as JSON! Tried to decode message ",
        ". Original error: " ++ jsonDecodeMessage ++ ".",
        by simp only [protocolErrorMessage, strAppend_assoc]⟩
    | some v =>
      simp only [hload]
      refine ⟨⟨fun he => ?_, fun hor => ?_⟩,
        fun hf => absurd hf (by simp [hd']),
        fun _ hn => Option.noConfusion hn,
        fun v2 _ hv2 => by cases hv2; rfl⟩
      · obtain ⟨e, he⟩ := he
        cases he
      · rcases hor with hor | hor
        · exact absurd hor (by simp [hd'])
        · exact Option.noConfusion hor

/-- Witness for `read_characterization`: the spec's malformed-header
scenario (wire `"abc\n\x7b\x7d"`) raises the header error carrying `"abc"`,
and its malformed-payload scenario (wire `"5\nnotjs"`) raises the JSON
error carrying the raw bytes `"notjs"`. -/
theorem read_characterization_witness :
    readFrame ['a', 'b', 'c', '\n', '\x7b', '\x7d'] =
      .error (.badHeader ['a', 'b', 'c']) ∧
    readFrame ['5', '\n', 'n', 'o', 't', 'j', 's'] =
      .error (.badJson ['n', 'o', 't', 'j', 's'] jsonDecodeMessage) :=
  ⟨((read_characterization ['a', 'b', 'c', '\n', '\x7b', '\x7d']).2.1 (by decide)).1,
   ((read_characterization ['5', '\n', 'n', 'o', 't', 'j', 's']).2.2.1
     (by decide) (by decide)).1⟩

/-- C8 (counterexample): the encoded ping request is 40 bytes, not 33, and
the bytes on the wire are not `33\n` followed by the separator-free
rendering: `json.dumps` uses the default separators `", "` and `": "`. -/
theorem ping_frame_counterexample :
    (serVal pingRequest).length ≠ 33 ∧
    writeFrame pingRequest ≠
      ("33\n\x7b\"method\":\"ping\",\"args\":[],\"kw\":\x7b\x7d\x7d").data := by
  refine ⟨by decide, by decide⟩

/-- C8 (amended): the encoded ping request is 40 bytes and the bytes on
the wire are exactly `40`, a newline, and the payload with Python's
default separators, with no trailing newline. -/
theorem ping_frame_bytes :
    writeFrame pingRequest =
      ("40\n\x7b\"method\": \"ping\", \"args\": [], \"kw\": \x7b\x7d\x7d").data := by
  decide

/-! ## The serve loop

`NegotiatorInterface.enter_main_loop` (current revision): read a request,
look the method name up with `getattr(self, method_name, None)`, dispatch
when the attribute exists and the name does not start with an underscore,
and write exactly one response per request; exceptions from the
dispatched method are caught and converted to error responses. -/

/-- A dispatched method: called with positional and keyword arguments; a
raised exception is an `Except.error` carrying `str(e)`. -/
def Handler : Type := List Json → List (String × Json) → Except String Json

/-- `dict.get` on a decoded JSON object (duplicate keys: last wins, as
when Python builds the dict). -/
def lookupLast (kvs : List (String × Json)) (key : String) : Option Json :=
  (kvs.reverse.find? (fun kv => kv.1 == key)).map Prod.snd

/-- Extraction of `method`, `args` and `kw` from a decoded request, with
the defaults `[]` and `\x7b\x7d` used by `enter_main_loop`.  `none` models an
uncaught exception at extraction (a non-object request, a missing or
non-string method name, or non-sequence arguments), which kills the
loop. -/
def decodeRequest (j : Json) : Option (String × List Json × List (String × Json)) :=
  match j with
  | .obj kvs =>
    match lookupLast kvs "method" with
    | some (.str name) =>
      let args : Option (List Json) :=
        match lookupLast kvs "args" with
        | none => some []
        | some (.arr l) => some l
        | some _ => none
      let kw : Option (List (String × Json)) :=
        match lookupLast kvs "kw" with
        | none => some []
        | some (.obj m) => some m
        | some _ => none
      match args, kw with
      | some a, some k => some (name, a, k)
      | _, _ => none
    | _ => none
  | _ => none

/-- `method_name.startswith(prefix_string)` (structural model of Python's
`str.startswith`). -/
def pyStartswith (s pre : String) : Bool := pre.data.isPrefixOf s.data

/-- The fixed error response for unsupported or underscore-prefixed
method names: `dict(success=False, error="Method %s not supported")`. -/
def unsupportedResponse (name : String) : Json :=
  .obj [("success", .bool false), ("error", .str ("Method " ++ name ++ " not supported"))]

/-- One dispatch of the serve loop: which local method is invoked (if
any) and the response value written.  Mirrors
`if method and not method_name.startswith('_')`. -/
def dispatchStep (attrs : String → Option Handler) (name : String)
    (args : List Json) (kw : List (String × Json)) : Option String × Json :=
  match attrs name, pyStartswith name "_" with
  | some h, false =>
    match h args kw with
    | .ok result => (some name, .obj [("success", .bool true), ("result", result)])
    | .error e => (some name, .obj [("success", .bool false), ("error", .str e)])
  | _, _ => (none, unsupportedResponse name)

/-- The serve loop over a sequence of decoded request frames: one
response per request, stopping only when request extraction raises. -/
def serveLoop (attrs : String → Option Handler) : List Json → List Json
  | [] => []
  | req :: rest =>
    match decodeRequest req with
    | some p => (dispatchStep attrs p.1 p.2.1 p.2.2).2 :: serveLoop attrs rest
    | none => []

/-- C3: a request whose method name is empty, starts with an underscore,
or is not an attribute of the dispatcher never invokes a local method,
and the response written is
`\x7bsuccess: false, error: "Method <name> not supported"\x7d`.  The
hypothesis `attrs "" = none` records that Python attribute names are
nonempty identifiers. -/
theorem dispatch_exclusion (attrs : String → Option Handler) (name : String)
    (args : List Json) (kw : List (String × Json)) (req : Json) (rest : List Json)
    (hdec : decodeRequest req = some (name, args, kw))
    (hempty : attrs "" = none)
    (h : name = "" ∨ pyStartswith name "_" = true ∨ attrs name = none) :
    dispatchStep attrs name args kw = (none, unsupportedResponse name) ∧
    serveLoop attrs (req :: rest) = unsupportedResponse name :: serveLoop attrs rest := by
  have hstep : dispatchStep attrs name args kw = (none, unsupportedResponse name) := by
    unfold dispatchStep
    rcases h with rfl | h | h
    · rw [hempty]
    · rw [h]
      cases attrs name <;> rfl
    · rw [h]
  refine ⟨hstep, ?_⟩
  conv_lhs => unfold serveLoop
  simp only [hdec, hstep]

/-- The attribute table of the spec's fourth concrete scenario: a server
registering only `ping`. -/
def pingOnly : String → Option Handler :=
  fun name => if name = "ping" then some (fun _ _ => .ok .null) else none

/-- Witness for `dispatch_exclusion`: the request
`\x7b"method":"_private","args":[],"kw":\x7b\x7d\x7d` against a server with only
`ping` is answered by `Method _private not supported` without invoking
anything. -/
theorem dispatch_exclusion_witness :
    dispatchStep pingOnly "_private" [] [] = (none, unsupportedResponse "_private") ∧
    serveLoop pingOnly
        [.obj [("method", .str "_private"), ("args", .arr []), ("kw", .obj [])]] =
      unsupportedResponse "_private" :: serveLoop pingOnly [] :=
  dispatch_exclusion pingOnly "_private" [] []
    (.obj [("method", .str "_private"), ("args", .arr []), ("kw", .obj [])]) []
    (by decide) rfl (.inr (.inl (by decide)))

/-- C4: an exception raised by a dispatched method is caught and written
as a `success=false` response carrying `str(e)`, and the loop goes on to
serve the remaining requests unchanged. -/
theorem error_containment (attrs : String → Option Handler) (h : Handler)
    (name : String) (args : List Json) (kw : List (String × Json))
    (req : Json) (rest : List Json) (e : String)
    (hdec : decodeRequest req = some (name, args, kw))
    (hattr : attrs name = some h)
    (hname : pyStartswith name "_" = false)
    (herr : h args kw = .error e) :
    serveLoop attrs (req :: rest) =
      Json.obj [("success", .bool false), ("error", .str e)] :: serveLoop attrs rest := by
  conv_lhs => unfold serveLoop
  simp only [hdec]
  unfold dispatchStep
  simp only [hattr, hname, herr]

/-- A method that always raises, and a table exposing it. -/
def boomHandler : Handler := fun _ _ => .error "kaboom"

def boomAttrs : String → Option Handler :=
  fun name => if name = "boom" then some boomHandler else none

/-- Witness for `error_containment`: after `boom` raises, the following
`boom` request is still served (and also answered). -/
theorem error_containment_witness :
    serveLoop boomAttrs
        [.obj [("method", .str "boom")], .obj [("method", .str "boom")]] =
      Json.obj [("success", .bool false), ("error", .str "kaboom")] ::
        serveLoop boomAttrs [.obj [("method", .str "boom")]] :=
  error_containment boomAttrs boomHandler "boom" [] []
    (.obj [("method", .str "boom")]) [.obj [("method", .str "boom")]] "kaboom"
    (by decide) rfl (by decide) rfl

/-! ## The historical serve loop (`negotiator_common.py`, version 0.1)

In the historical revision `enter_main_loop` dispatches on
`getattr(self, command_name, None)` while the class also defines
`__getattr__`, which builds a proxy (`fake_method`) for every missing
attribute.  `getattr` therefore never returns `None`: an unknown command
name is dispatched to a proxy that writes a request frame naming the
requested command to the peer and blocks reading a response; the
`self.send(...)` calls on the error paths resolve through the same proxy
and write a request frame naming `send`. -/

/-- Where one iteration of the historical loop ends: either a response
was written and the loop continues, or a proxy wrote a request frame and
is now blocked reading the peer's reply. -/
inductive OldOutcome where
  | responded
  | awaitingReply (method : String)
deriving DecidableEq

/-- One iteration of the historical serve loop: the frames written to
the peer through the framing writer (in order), whether `self.send` was
evaluated, and where the iteration ended. -/
structure OldStepResult where
  written : List Json
  sendCalled : Bool
  outcome : OldOutcome
deriving DecidableEq

/-- The request frame written by `fake_method`:
`dict(command=name, arguments=args, keyword_arguments=kw)`. -/
def oldRequestFrame (command : String) (arguments : List Json)
    (kwArguments : List (String × Json)) : Json :=
  .obj [("command", .str command), ("arguments", .arr arguments),
        ("keyword_arguments", .obj kwArguments)]

/-- `dict(success=False, error=e)` — the value the error paths pass to
`self.send`. -/
def oldErrorValue (e : String) : Json :=
  .obj [("success", .bool false), ("error", .str e)]

/-- One iteration of the historical serve loop given the decoded command
name, arguments and the table of real attributes.  The model stops at
the first blocking read, so `written` lists the frames sent before the
iteration blocks. -/
def oldServeStep (attrs : String → Option Handler) (name : String)
    (args : List Json) (kw : List (String × Json)) : OldStepResult :=
  -- `if method and not command_name.startswith('_')`: `method` is always
  -- truthy because `__getattr__` supplies `fake_method` for missing names.
  if pyStartswith name "_" = false then
    match attrs name with
    | some h =>
      match h args kw with
      | .ok result =>
        { written := [.obj [("success", .bool true), ("result", result)]],
          sendCalled := false, outcome := .responded }
      | .error e =>
        -- `self.send(dict(success=False, error=str(e)))`: `send` is not a
        -- defined attribute, so the attribute proxy writes a request frame
        -- naming `send` and blocks reading a response.
        { written := [oldRequestFrame "send" [oldErrorValue e] []],
          sendCalled := true, outcome := .awaitingReply "send" }
    | none =>
      -- `getattr` returned `fake_method` for the unknown name: the proxy
      -- writes a request frame naming the requested command and blocks;
      -- the `else: self.send(...)` branch is never reached.
      { written := [oldRequestFrame name args kw],
        sendCalled := false, outcome := .awaitingReply name }
  else
    { written :=
        [oldRequestFrame "send"
          [oldErrorValue ("Command " ++ name ++ " not supported")] []],
      sendCalled := true, outcome := .awaitingReply "send" }

/-- C9 (counterexample): in the historical revision a request for an
unsupported, non-underscore command (`frobnicate` against a server whose
only method is `ping`) does not call `self.send` at all, and the frame
written names the requested command rather than `send` — the attribute
proxy intercepts the name at `getattr` before the unsupported branch can
run. -/
theorem old_unsupported_counterexample :
    (oldServeStep pingOnly "frobnicate" [] []).sendCalled = false ∧
    (oldServeStep pingOnly "frobnicate" [] []).written =
      [oldRequestFrame "frobnicate" [] []] := by
  constructor
  · rfl
  · rfl

/-- C9 (amended): on the underscore path and on the exception path the
historical loop calls `self.send`, which the attribute proxy turns into
a request frame naming `send`; an unsupported non-underscore name never
reaches the unsupported branch — the proxy obtained from `getattr`
writes a request frame naming the requested command; on all three paths
no `success=false` response frame is written through the framing
writer. -/
theorem old_serve_error_paths (attrs : String → Option Handler) (h : Handler)
    (name : String) (args : List Json) (kw : List (String × Json)) (e : String) :
    (pyStartswith name "_" = true →
      oldServeStep attrs name args kw =
        { written := [oldRequestFrame "send"
            [oldErrorValue ("Command " ++ name ++ " not supported")] []],
          sendCalled := true, outcome := .awaitingReply "send" }) ∧
    (pyStartswith name "_" = false → attrs name = some h → h args kw = .error e →
      oldServeStep attrs name args kw =
        { written := [oldRequestFrame "send" [oldErrorValue e] []],
          sendCalled := true, outcome := .awaitingReply "send" }) ∧
    (pyStartswith name "_" = false → attrs name = none →
      oldServeStep attrs name args kw =
        { written := [oldRequestFrame name args kw],
          sendCalled := false, outcome := .awaitingReply name }) := by
  refine ⟨fun hu => ?_, fun hu ha he => ?_, fun hu ha => ?_⟩
  · unfold oldServeStep
    rw [if_neg (by simp [hu])]
  · unfold oldServeStep
    rw [if_pos hu]
    simp only [ha, he]
  · unfold oldServeStep
    rw [if_pos hu]
    simp only [ha]

/-- Witness for `old_serve_error_paths` covering all three error paths at
concrete inputs. -/
theorem old_serve_error_paths_witness :
    oldServeStep pingOnly "_private" [] [] =
      { written := [oldRequestFrame "send"
          [oldErrorValue "Command _private not supported"] []],
        sendCalled := true, outcome := .awaitingReply "send" } ∧
    oldServeStep boomAttrs "boom" [] [] =
      { written := [oldRequestFrame "send" [oldErrorValue "kaboom"] []],
        sendCalled := true, outcome := .awaitingReply "send" } ∧
    oldServeStep pingOnly "frobnicate" [] [] =
      { written := [oldRequestFrame "frobnicate" [] []],
        sendCalled := false, outcome := .awaitingReply "frobnicate" } :=
  ⟨(old_serve_error_paths pingOnly boomHandler "_private" [] [] "").1 (by decide),
   (old_serve_error_paths boomAttrs boomHandler "boom" [] [] "kaboom").2.1
     (by decide) rfl rfl,
   (old_serve_error_paths pingOnly boomHandler "frobnicate" [] [] "").2.2
     (by decide) rfl⟩

/-! ## The host supervisor (`HostDaemon.update_active_channels`)

The daemon's state is the dictionary `active_channels`, keyed by
`(guest_name, unix_socket)` pairs.  Each tick discovers the available
guest-to-host sockets with `find_available_channels` and synchronizes
the worker set against them.  There is no ignored/quarantine component
in the state. -/

/-- Association-list model of a Python `dict` (unique keys); lookup of a
key's value. -/
def lookupA {α β : Type} [DecidableEq α] : List (α × β) → α → Option β
  | [], _ => none
  | kv :: rest, k => if kv.1 = k then some kv.2 else lookupA rest k

/-- `d[k] = v`: replace the key's entry in place, else append. -/
def insertA {α β : Type} [DecidableEq α] : List (α × β) → α → β → List (α × β)
  | [], k, v => [(k, v)]
  | kv :: rest, k, v => if kv.1 = k then (k, v) :: rest else kv :: insertA rest k v

/-- `d.pop(k)`. -/
def eraseA {α β : Type} [DecidableEq α] : List (α × β) → α → List (α × β)
  | [], _ => []
  | kv :: rest, k => if kv.1 = k then rest else kv :: eraseA rest k

/-- `dict(pairs)`: later pairs override earlier ones. -/
def pyDict {α β : Type} [DecidableEq α] (l : List (α × β)) : List (α × β) :=
  l.foldl (fun m kv => insertA m kv.1 kv.2) []

theorem lookupA_insertA_self {α β : Type} [DecidableEq α]
    (m : List (α × β)) (k : α) (v : β) : lookupA (insertA m k v) k = some v := by
  induction m with
  | nil => simp [insertA, lookupA]
  | cons kv rest ih =>
    unfold insertA
    by_cases hk : kv.1 = k
    · rw [if_pos hk]
      simp [lookupA]
    · rw [if_neg hk]
      unfold lookupA
      rw [if_neg hk, ih]

theorem lookupA_insertA_other {α β : Type} [DecidableEq α]
    (m : List (α × β)) (k k2 : α) (v : β) (h : k2 ≠ k) :
    lookupA (insertA m k v) k2 = lookupA m k2 := by
  induction m with
  | nil =>
    show lookupA [(k, v)] k2 = lookupA [] k2
    simp only [lookupA]
    rw [if_neg (fun hh => h hh.symm)]
  | cons kv rest ih =>
    unfold insertA
    by_cases hk : kv.1 = k
    · rw [if_pos hk]
      unfold lookupA
      rw [if_neg (fun hh => h hh.symm), if_neg (hk ▸ fun hh => h hh.symm)]
    · rw [if_neg hk]
      unfold lookupA
      by_cases hk2 : kv.1 = k2
      · rw [if_pos hk2, if_pos hk2]
      · rw [if_neg hk2, if_neg hk2, ih]

theorem lookupA_none_of_not_mem {α β : Type} [DecidableEq α]
    (m : List (α × β)) (k : α) (h : k ∉ m.map Prod.fst) : lookupA m k = none := by
  induction m with
  | nil => simp [lookupA]
  | cons kv rest ih =>
    simp only [List.map_cons, List.mem_cons, not_or] at h
    unfold lookupA
    rw [if_neg (fun hh => h.1 hh.symm), ih h.2]

theorem lookupA_eraseA_self {α β : Type} [DecidableEq α]
    (m : List (α × β)) (k : α) (hnd : (m.map Prod.fst).Nodup) :
    lookupA (eraseA m k) k = none := by
  induction m with
  | nil => simp [eraseA, lookupA]
  | cons kv rest ih =>
    simp only [List.map_cons, List.nodup_cons] at hnd
    unfold eraseA
    by_cases hk : kv.1 = k
    · rw [if_pos hk]
      exact lookupA_none_of_not_mem rest k (fun hm => hnd.1 (hk ▸ hm))
    · rw [if_neg hk]
      unfold lookupA
      rw [if_neg hk]
      exact ih hnd.2

theorem lookupA_eraseA_other {α β : Type} [DecidableEq α]
    (m : List (α × β)) (k k2 : α) (h : k2 ≠ k) :
    lookupA (eraseA m k) k2 = lookupA m k2 := by
  induction m with
  | nil => simp [eraseA]
  | cons kv rest ih =>
    unfold eraseA
    by_cases hk : kv.1 = k
    · rw [if_pos hk]
      conv_rhs => unfold lookupA
      rw [if_neg (fun hh => h (hk.symm.trans hh).symm)]
    · rw [if_neg hk]
      unfold lookupA
      by_cases hk2 : kv.1 = k2
      · rw [if_pos hk2, if_pos hk2]
      · rw [if_neg hk2, if_neg hk2, ih]

theorem eraseA_sublist {α β : Type} [DecidableEq α] (m : List (α × β)) (k : α) :
    List.Sublist (eraseA m k) m := by
  induction m with
  | nil => simp [eraseA]
  | cons kv rest ih =>
    unfold eraseA
    by_cases hk : kv.1 = k
    · rw [if_pos hk]
      exact List.sublist_cons_self kv rest
    · rw [if_neg hk]
      exact ih.cons₂ kv

theorem nodup_eraseA {α β : Type} [DecidableEq α]
    (m : List (α × β)) (k : α) (hnd : (m.map Prod.fst).Nodup) :
    ((eraseA m k).map Prod.fst).Nodup :=
  List.Nodup.sublist ((eraseA_sublist m k).map Prod.fst) hnd

theorem mem_insertA {α β : Type} [DecidableEq α]
    {m : List (α × β)} {k : α} {v : β} {x : α × β} (h : x ∈ insertA m k v) :
    x ∈ m ∨ x = (k, v) := by
  induction m with
  | nil => simp [insertA] at h; exact .inr h
  | cons kv rest ih =>
    unfold insertA at h
    split at h
    · rcases List.mem_cons.mp h with rfl | h
      · exact .inr rfl
      · exact .inl (by simp [h])
    · rcases List.mem_cons.mp h with rfl | h
      · exact .inl (by simp)
      · rcases ih h with h | h
        · exact .inl (by simp [h])
        · exact .inr h

/-! ## Host daemon: channel discovery and supervisor reconciliation

`HostDaemon.update_active_channels` synchronises the dict `active_channels`
(keyed by `(guest_name, unix_socket)` pairs) with the channels discovered on
the filesystem by `find_available_channels`.  The per-key body consists of
three sequential conditionals on the mutable dict; Python iterates
`set(self.active_channels) | set(available_channels)`, which we model as a
duplicate-free list of keys. -/

/-- A channel key as used by the host daemon: a `(guest_name, unix_socket)`
pair, matching `key = (guest_name, unix_socket)` in `update_active_channels`. -/
abbrev ChanKey := String × String

/-- An `AutomaticGuestChannel` worker process, abstracted to the fields the
reconciliation loop inspects (`is_alive()` becomes the `alive` flag). -/
structure Worker where
  guest : String
  socket : String
  alive : Bool

/-- First conditional of `update_active_channels`: a previously spawned worker
that has died is popped from the dict. -/
def tickDead (ac : List (ChanKey × Worker)) (key : ChanKey) : List (ChanKey × Worker) :=
  match lookupA ac key with
  | some w => if w.alive then ac else eraseA ac key
  | none => ac

/-- Second conditional of `update_active_channels`: an available channel with
no worker gets a fresh worker (`AutomaticGuestChannel(...)`, abstracted by
`spawn`). -/
def tickSpawn (avail : List ChanKey) (spawn : ChanKey → Worker)
    (ac : List (ChanKey × Worker)) (key : ChanKey) : List (ChanKey × Worker) :=
  if key ∈ avail ∧ (lookupA ac key).isNone then insertA ac key (spawn key) else ac

/-- Third conditional of `update_active_channels`: a worker whose UNIX socket
has disappeared is terminated and popped. -/
def tickDestroy (avail : List ChanKey) (ac : List (ChanKey × Worker))
    (key : ChanKey) : List (ChanKey × Worker) :=
  if (lookupA ac key).isSome ∧ key ∉ avail then eraseA ac key else ac

/-- Body of the per-key loop of `update_active_channels`: the three
conditionals run in sequence on the mutable dict. -/
def tickKey (avail : List ChanKey) (spawn : ChanKey → Worker)
    (ac : List (ChanKey × Worker)) (key : ChanKey) : List (ChanKey × Worker) :=
  tickDestroy avail (tickSpawn avail spawn (tickDead ac key) key) key

/-- Duplicate-free view of a list, used to model iteration over a Python set. -/
def dedupKeys {α : Type} [DecidableEq α] : List α → List α
  | [] => []
  | k :: rest => if k ∈ dedupKeys rest then dedupKeys rest else k :: dedupKeys rest

/-- `HostDaemon.update_active_channels`: every key of
`set(self.active_channels) | set(available_channels)` is processed once. -/
def updateActiveChannels (avail : List ChanKey) (spawn : ChanKey → Worker)
    (ac : List (ChanKey × Worker)) : List (ChanKey × Worker) :=
  (dedupKeys ((ac.map Prod.fst) ++ avail)).foldl (tickKey avail spawn) ac

/-- Directory entry seen by the `os.walk` loop of `find_available_channels`:
the directory `root`, the plain `filename`, and whether
`stat.S_ISSOCK(os.stat(pathname).st_mode)` holds for it. -/
structure FsEntry where
  root : String
  filename : String
  isSock : Bool

/-- Exceptions `find_available_channels` can raise: `int(domain_id)` on a
non-numeric domain id, and the reference to `pathname` in the logging call of
the else-branch before `pathname` was ever assigned. -/
inductive FindErr where
  | valueError
  | unboundLocal
deriving DecidableEq

/-- Loop state of `find_available_channels`: the `channels` dict built so far
and the last value assigned to the local variable `pathname` (if any). -/
structure FindSt where
  channels : List (String × String)
  lastPath : Option String

/-- Model of `os.path.basename`. -/
def basename (p : String) : String :=
  String.mk ((p.data.reverse.takeWhile (fun c => c != '/')).reverse)

/-- Model of `re.sub(r'^domain-', '', s)`: one leading `domain-` tag is
removed. -/
def dropDomainTag (s : String) : String :=
  if pyStartswith s "domain-" then String.mk (s.data.drop 7) else s

/-- Model of `s.partition('-')`: the part before the first dash, and the part
after it when a dash occurs. -/
def splitAtDash : List Char → List Char × Option (List Char)
  | [] => ([], none)
  | c :: rest =>
    if c = '-' then ([], some rest)
    else
      let r := splitAtDash rest
      (c :: r.1, r.2)

/-- Model of Python `s.endswith(suffix)`. -/
def pyEndswith (s suf : String) : Bool := suf.data.isSuffixOf s.data

/-- Model of `int(s)` on the domain-id strings produced by directory names: it
succeeds exactly on nonempty all-digit strings (signs and surrounding
whitespace never occur in libvirt domain directory names). -/
def pyInt (cs : List Char) : Option Int :=
  if cs ≠ [] ∧ cs.all Char.isDigit then some (Int.ofNat (decVal cs)) else none

/-- Model of `os.path.join(root, filename)` for the pathnames produced by
`os.walk`. -/
def pyJoin (a b : String) : String := a ++ "/" ++ b

/-- Guest-name extraction of `find_available_channels` for one directory
entry: the `filename == name` branch parses the directory name (new naming
conventions, with `int(domain_id)` possibly raising `ValueError`), the
`filename.endswith(suffix)` branch strips the suffix (old naming convention),
and an empty `guest_name` is falsy, skipping the entry. -/
def guestNameOf (chanName : String) (e : FsEntry) :
    Except FindErr (Option (String × Option Int)) :=
  if e.filename = chanName then
    let wp := dropDomainTag (basename e.root)
    match splitAtDash wp.data with
    | (did, some rest) =>
      if did ≠ [] ∧ rest ≠ [] then
        match pyInt did with
        | some n => .ok (some (String.mk rest, some n))
        | none => .error .valueError
      else if wp.data = [] then .ok none else .ok (some (wp, none))
    | (_, none) =>
      if wp.data = [] then .ok none else .ok (some (wp, none))
  else if pyEndswith e.filename ("." ++ chanName) then
    let g := e.filename.data.take (e.filename.data.length - (chanName.data.length + 1))
    if g = [] then .ok none else .ok (some (String.mk g, none))
  else .ok none

/-- The running check of `find_available_channels`:
`guest_name in running_guests and (running_guests[guest_name] == domain_id if
domain_id else True)`; a domain id of `0` is falsy and skips the comparison. -/
def runningOk (running : List (String × Int)) (g : String) (dom : Option Int) : Bool :=
  match lookupA running g with
  | none => false
  | some rid =>
    match dom with
    | none => true
    | some d => if d = 0 then true else decide (rid = d)

/-- One iteration of the inner loop of `find_available_channels`.  When the
running check succeeds, `pathname` is assigned and the entry is recorded if it
is a UNIX socket; when it fails, the logging call reads `pathname`, raising
`UnboundLocalError` if no earlier iteration assigned it. -/
def findStep (chanName : String) (running : List (String × Int))
    (st : FindSt) (e : FsEntry) : Except FindErr FindSt :=
  match guestNameOf chanName e with
  | .error err => .error err
  | .ok none => .ok st
  | .ok (some (g, dom)) =>
    if runningOk running g dom then
      if e.isSock then
        .ok ⟨insertA st.channels g (pyJoin e.root e.filename), some (pyJoin e.root e.filename)⟩
      else
        .ok ⟨st.channels, some (pyJoin e.root e.filename)⟩
    else
      match st.lastPath with
      | none => .error .unboundLocal
      | some _ => .ok st

/-- The walk of `find_available_channels` over the discovered entries. -/
def findAvailAux (chanName : String) (running : List (String × Int))
    (st : FindSt) : List FsEntry → Except FindErr FindSt
  | [] => .ok st
  | e :: rest =>
    match findStep chanName running st e with
    | .error err => .error err
    | .ok st2 => findAvailAux chanName running st2 rest

/-- `find_available_channels(directory, name)`: the `channels` dict after
walking all directory entries, starting from the empty dict and an unbound
`pathname`. -/
def findAvailableChannels (chanName : String) (running : List (String × Int))
    (entries : List FsEntry) : Except FindErr (List (String × String)) :=
  match findAvailAux chanName running ⟨[], none⟩ entries with
  | .error err => .error err
  | .ok st => .ok st.channels

/-- `GUEST_TO_HOST_CHANNEL_NAME` from `negotiator_common.config`. -/
def guestToHostChannelName : String := "negotiator-guest-to-host.0"

/-- State of a `HostDaemon`: `__init__` stores exactly `active_channels` and
`channel_directory`. -/
structure HostState where
  active_channels : List (ChanKey × Worker)
  channel_directory : String

/-- The quarantine set described by the specification.  `HostDaemon` holds no
such component - `__init__` creates only `active_channels` and
`channel_directory`, and `update_active_channels` records nothing about guests
it declines to spawn - so the only faithful reading of the specified
`ignored` set is the constantly empty one.  This definition follows the
wording of the specification and exists to be compared with the code. -/
def specIgnoredSet (_ : HostState) : List String := []

/-- One reconciliation tick of the host daemon: discover the available
channels, then synchronise `active_channels` against them. -/
def hostTick (st : HostState) (running : List (String × Int)) (entries : List FsEntry)
    (spawn : ChanKey → Worker) : Except FindErr HostState :=
  match findAvailableChannels guestToHostChannelName running entries with
  | .error err => .error err
  | .ok avail => .ok ⟨updateActiveChannels avail spawn st.active_channels, st.channel_directory⟩

theorem keys_insertA {α β : Type} [DecidableEq α]
    {m : List (α × β)} {k : α} {v : β} {x : α} (h : x ∈ (insertA m k v).map Prod.fst) :
    x = k ∨ x ∈ m.map Prod.fst := by
  rcases List.mem_map.mp h with ⟨pair, hp, rfl⟩
  rcases mem_insertA hp with h1 | h2
  · exact .inr (List.mem_map.mpr ⟨pair, h1, rfl⟩)
  · exact .inl (by rw [h2])

theorem nodup_insertA {α β : Type} [DecidableEq α]
    (m : List (α × β)) (k : α) (v : β) (hnd : (m.map Prod.fst).Nodup) :
    ((insertA m k v).map Prod.fst).Nodup := by
  induction m with
  | nil => simp [insertA]
  | cons kv rest ih =>
    simp only [List.map_cons, List.nodup_cons] at hnd
    unfold insertA
    by_cases hk : kv.1 = k
    · simp only [if_pos hk, List.map_cons, List.nodup_cons]
      exact ⟨fun hm => hnd.1 (hk ▸ hm), hnd.2⟩
    · simp only [if_neg hk, List.map_cons, List.nodup_cons]
      refine ⟨fun hm => ?_, ih hnd.2⟩
      rcases keys_insertA hm with h1 | hm2
      · exact hk h1
      · exact hnd.1 hm2

theorem mem_dedupKeys {α : Type} [DecidableEq α] (l : List α) (x : α) :
    x ∈ dedupKeys l ↔ x ∈ l := by
  induction l with
  | nil => simp [dedupKeys]
  | cons k rest ih =>
    unfold dedupKeys
    by_cases hk : k ∈ dedupKeys rest
    · rw [if_pos hk, ih, List.mem_cons]
      exact ⟨Or.inr, fun h => h.elim (fun hh => by subst hh; exact ih.mp hk) id⟩
    · rw [if_neg hk, List.mem_cons, List.mem_cons, ih]

theorem lookupA_tickDead (ac : List (ChanKey × Worker)) (key : ChanKey)
    (hnd : (ac.map Prod.fst).Nodup) :
    lookupA (tickDead ac key) key =
      match lookupA ac key with
      | some w => if w.alive then some w else none
      | none => none := by
  unfold tickDead
  cases h : lookupA ac key with
  | none => exact h
  | some w =>
    show lookupA (if w.alive then ac else eraseA ac key) key = if w.alive then some w else none
    by_cases ha : w.alive
    · rw [if_pos ha, if_pos ha]; exact h
    · rw [if_neg ha, if_neg ha]; exact lookupA_eraseA_self ac key hnd

theorem lookupA_tickSpawn (avail : List ChanKey) (spawn : ChanKey → Worker)
    (ac : List (ChanKey × Worker)) (key : ChanKey) :
    lookupA (tickSpawn avail spawn ac key) key =
      if key ∈ avail ∧ (lookupA ac key).isNone then some (spawn key) else lookupA ac key := by
  unfold tickSpawn
  by_cases hc : key ∈ avail ∧ (lookupA ac key).isNone = true
  · rw [if_pos hc, if_pos hc, lookupA_insertA_self]
  · rw [if_neg hc, if_neg hc]

theorem lookupA_tickDestroy (avail : List ChanKey) (ac : List (ChanKey × Worker))
    (key : ChanKey) (hnd : (ac.map Prod.fst).Nodup) :
    lookupA (tickDestroy avail ac key) key =
      if (lookupA ac key).isSome ∧ key ∉ avail then none else lookupA ac key := by
  unfold tickDestroy
  by_cases hc : (lookupA ac key).isSome = true ∧ key ∉ avail
  · rw [if_pos hc, if_pos hc]; exact lookupA_eraseA_self ac key hnd
  · rw [if_neg hc, if_neg hc]

theorem tickDead_nodup (ac : List (ChanKey × Worker)) (key : ChanKey)
    (hnd : (ac.map Prod.fst).Nodup) : (((tickDead ac key).map Prod.fst)).Nodup := by
  unfold tickDead
  cases lookupA ac key with
  | none => exact hnd
  | some w =>
    show (((if w.alive then ac else eraseA ac key).map Prod.fst)).Nodup
    by_cases ha : w.alive
    · rw [if_pos ha]; exact hnd
    · rw [if_neg ha]; exact nodup_eraseA ac key hnd

theorem tickSpawn_nodup (avail : List ChanKey) (spawn : ChanKey → Worker)
    (ac : List (ChanKey × Worker)) (key : ChanKey)
    (hnd : (ac.map Prod.fst).Nodup) : (((tickSpawn avail spawn ac key).map Prod.fst)).Nodup := by
  unfold tickSpawn
  by_cases hc : key ∈ avail ∧ (lookupA ac key).isNone = true
  · rw [if_pos hc]; exact nodup_insertA ac key (spawn key) hnd
  · rw [if_neg hc]; exact hnd

theorem tickDestroy_nodup (avail : List ChanKey) (ac : List (ChanKey × Worker))
    (key : ChanKey) (hnd : (ac.map Prod.fst).Nodup) :
    (((tickDestroy avail ac key).map Prod.fst)).Nodup := by
  unfold tickDestroy
  by_cases hc : (lookupA ac key).isSome = true ∧ key ∉ avail
  · rw [if_pos hc]; exact nodup_eraseA ac key hnd
  · rw [if_neg hc]; exact hnd

theorem tickKey_nodup (avail : List ChanKey) (spawn : ChanKey → Worker)
    (ac : List (ChanKey × Worker)) (key : ChanKey)
    (hnd : (ac.map Prod.fst).Nodup) : (((tickKey avail spawn ac key).map Prod.fst)).Nodup :=
  tickDestroy_nodup avail _ key (tickSpawn_nodup avail spawn _ key (tickDead_nodup ac key hnd))

theorem tickKey_lookupSome (avail : List ChanKey) (spawn : ChanKey → Worker)
    (ac : List (ChanKey × Worker)) (key : ChanKey)
    (hnd : (ac.map Prod.fst).Nodup) :
    (lookupA (tickKey avail spawn ac key) key).isSome = true ↔ key ∈ avail := by
  have hnd1 := tickDead_nodup ac key hnd
  have hnd2 := tickSpawn_nodup avail spawn (tickDead ac key) key hnd1
  unfold tickKey
  rw [lookupA_tickDestroy avail _ key hnd2, lookupA_tickSpawn, lookupA_tickDead ac key hnd]
  by_cases hmem : key ∈ avail
  · cases h : lookupA ac key with
    | none => simp [hmem]
    | some w =>
      by_cases ha : w.alive
      · simp [hmem, ha]
      · simp [hmem, ha]
  · cases h : lookupA ac key with
    | none => simp [hmem]
    | some w =>
      by_cases ha : w.alive
      · simp [hmem, ha]
      · simp [hmem, ha]

theorem lookupA_tickDead_other (ac : List (ChanKey × Worker)) (key key2 : ChanKey)
    (h : key2 ≠ key) : lookupA (tickDead ac key) key2 = lookupA ac key2 := by
  unfold tickDead
  cases lookupA ac key with
  | none => rfl
  | some w =>
    show lookupA (if w.alive then ac else eraseA ac key) key2 = lookupA ac key2
    by_cases ha : w.alive
    · rw [if_pos ha]
    · rw [if_neg ha]; exact lookupA_eraseA_other ac key key2 h

theorem lookupA_tickSpawn_other (avail : List ChanKey) (spawn : ChanKey → Worker)
    (ac : List (ChanKey × Worker)) (key key2 : ChanKey) (h : key2 ≠ key) :
    lookupA (tickSpawn avail spawn ac key) key2 = lookupA ac key2 := by
  unfold tickSpawn
  by_cases hc : key ∈ avail ∧ (lookupA ac key).isNone = true
  · rw [if_pos hc]; exact lookupA_insertA_other ac key key2 (spawn key) h
  · rw [if_neg hc]

theorem lookupA_tickDestroy_other (avail : List ChanKey) (ac : List (ChanKey × Worker))
    (key key2 : ChanKey) (h : key2 ≠ key) :
    lookupA (tickDestroy avail ac key) key2 = lookupA ac key2 := by
  unfold tickDestroy
  by_cases hc : (lookupA ac key).isSome = true ∧ key ∉ avail
  · rw [if_pos hc]; exact lookupA_eraseA_other ac key key2 h
  · rw [if_neg hc]

theorem tickKey_other (avail : List ChanKey) (spawn : ChanKey → Worker)
    (ac : List (ChanKey × Worker)) (key key2 : ChanKey) (h : key2 ≠ key) :
    lookupA (tickKey avail spawn ac key) key2 = lookupA ac key2 := by
  unfold tickKey
  rw [lookupA_tickDestroy_other avail _ key key2 h, lookupA_tickSpawn_other avail spawn _ key key2 h,
    lookupA_tickDead_other ac key key2 h]

theorem foldl_tickKey_mem (avail : List ChanKey) (spawn : ChanKey → Worker) :
    ∀ (L : List ChanKey) (ac : List (ChanKey × Worker)),
      (ac.map Prod.fst).Nodup → ∀ key : ChanKey,
        (key ∈ L → ((lookupA (L.foldl (tickKey avail spawn) ac) key).isSome = true ↔ key ∈ avail)) ∧
        (key ∉ L → lookupA (L.foldl (tickKey avail spawn) ac) key = lookupA ac key) := by
  intro L
  induction L with
  | nil =>
    intro ac hnd key
    exact ⟨fun h => absurd h (List.not_mem_nil key), fun _ => rfl⟩
  | cons k0 L2 ih =>
    intro ac hnd key
    have hnd2 := tickKey_nodup avail spawn ac k0 hnd
    simp only [List.foldl_cons]
    constructor
    · intro hmem
      rcases List.mem_cons.mp hmem with rfl | hmem2
      · by_cases hin : key ∈ L2
        · exact (ih (tickKey avail spawn ac key) hnd2 key).1 hin
        · rw [(ih (tickKey avail spawn ac key) hnd2 key).2 hin]
          exact tickKey_lookupSome avail spawn ac key hnd
      · exact (ih (tickKey avail spawn ac k0) hnd2 key).1 hmem2
    · intro hmem
      have hk0 : key ≠ k0 := fun hh => hmem (hh ▸ List.mem_cons_self k0 L2)
      have hL2 : key ∉ L2 := fun hh => hmem (List.mem_cons_of_mem k0 hh)
      rw [(ih (tickKey avail spawn ac k0) hnd2 key).2 hL2]
      exact tickKey_other avail spawn ac k0 key hk0

theorem updateActiveChannels_lookup (avail : List ChanKey) (spawn : ChanKey → Worker)
    (ac : List (ChanKey × Worker)) (hnd : (ac.map Prod.fst).Nodup) (key : ChanKey) :
    (lookupA (updateActiveChannels avail spawn ac) key).isSome = true ↔ key ∈ avail := by
  unfold updateActiveChannels
  by_cases hmem : key ∈ dedupKeys (ac.map Prod.fst ++ avail)
  · exact (foldl_tickKey_mem avail spawn _ ac hnd key).1 hmem
  · rw [(foldl_tickKey_mem avail spawn _ ac hnd key).2 hmem]
    rw [mem_dedupKeys, List.mem_append] at hmem
    rw [lookupA_none_of_not_mem ac key (fun hh => hmem (.inl hh))]
    simp only [Option.isSome_none, Bool.false_eq_true, false_iff]
    exact fun hh => hmem (.inr hh)

theorem runningOk_isSome (running : List (String × Int)) (g : String) (dom : Option Int)
    (h : runningOk running g dom = true) : (lookupA running g).isSome = true := by
  unfold runningOk at h
  cases hl : lookupA running g with
  | none => rw [hl] at h; exact absurd h (by simp)
  | some rid => rfl

theorem findStep_running (chanName : String) (running : List (String × Int))
    (st : FindSt) (e : FsEntry) (st2 : FindSt)
    (h : findStep chanName running st e = .ok st2) :
    ∀ g, g ∈ st2.channels.map Prod.fst →
      g ∈ st.channels.map Prod.fst ∨ (lookupA running g).isSome = true := by
  unfold findStep at h
  cases hg : guestNameOf chanName e with
  | error err => rw [hg] at h; exact absurd h (by simp)
  | ok o =>
    rw [hg] at h
    cases o with
    | none =>
      injection h with h2
      subst h2
      exact fun g hmem => .inl hmem
    | some gd =>
      cases gd with
      | mk g0 dom =>
        by_cases hrun : runningOk running g0 dom = true
        · by_cases hsock : e.isSock = true
          · simp only [if_pos hrun, if_pos hsock] at h
            injection h with h2
            subst h2
            intro g hmem
            rcases keys_insertA hmem with h1 | h2
            · exact .inr (h1 ▸ runningOk_isSome running g0 dom hrun)
            · exact .inl h2
          · simp only [if_pos hrun, if_neg hsock] at h
            injection h with h2
            subst h2
            exact fun g hmem => .inl hmem
        · simp only [if_neg hrun] at h
          cases hp : st.lastPath with
          | none => rw [hp] at h; exact absurd h (by simp)
          | some p =>
            rw [hp] at h
            injection h with h2
            subst h2
            exact fun g hmem => .inl hmem

theorem findAvailAux_running (chanName : String) (running : List (String × Int)) :
    ∀ (entries : List FsEntry) (st st2 : FindSt),
      findAvailAux chanName running st entries = .ok st2 →
      ∀ g, g ∈ st2.channels.map Prod.fst →
        g ∈ st.channels.map Prod.fst ∨ (lookupA running g).isSome = true := by
  intro entries
  induction entries with
  | nil =>
    intro st st2 h g hg
    unfold findAvailAux at h
    injection h with h2
    subst h2
    exact .inl hg
  | cons e rest ih =>
    intro st st2 h g hg
    unfold findAvailAux at h
    cases hs : findStep chanName running st e with
    | error err => rw [hs] at h; exact absurd h (by simp)
    | ok stm =>
      rw [hs] at h
      rcases ih stm st2 h g hg with hmem | hr
      · exact findStep_running chanName running st e stm hs g hmem
      · exact .inr hr

theorem find_keys_running (chanName : String) (running : List (String × Int))
    (entries : List FsEntry) (avail : List (String × String))
    (h : findAvailableChannels chanName running entries = .ok avail) :
    ∀ k : String × String, k ∈ avail → (lookupA running k.1).isSome = true := by
  unfold findAvailableChannels at h
  cases hs : findAvailAux chanName running ⟨[], none⟩ entries with
  | error err => rw [hs] at h; exact absurd h (by simp)
  | ok st =>
    rw [hs] at h
    injection h with h2
    subst h2
    intro k hk
    rcases findAvailAux_running chanName running entries ⟨[], none⟩ st hs k.1
        (List.mem_map.mpr ⟨k, hk, rfl⟩) with hmem | hr
    · simp at hmem
    · exact hr

/-- C2 counterexample: the specification posits an `ignored` set into which the
supervisor puts running guests that lack the guest-to-host channel, but
`HostDaemon` maintains no such set.  Here guest `g3` is running
(`lookupA running "g3"` is defined), the filesystem walk sees no entries at
all - so `g3` certainly has no guest-to-host channel - and one reconciliation
tick succeeds, leaving a state with no worker for `g3` and with `g3` not in
the (necessarily empty) ignored set, contradicting the claim's third
conjunct. -/
theorem supervisor_ignored_counterexample :
    (lookupA [("g3", (1 : Int))] "g3").isSome = true ∧
    hostTick ⟨[], "/var/lib/libvirt/qemu/channel/target"⟩ [("g3", (1 : Int))] []
        (fun key => ⟨key.1, key.2, true⟩) =
      .ok ⟨[], "/var/lib/libvirt/qemu/channel/target"⟩ ∧
    "g3" ∉ specIgnoredSet ⟨[], "/var/lib/libvirt/qemu/channel/target"⟩ := by
  refine ⟨rfl, rfl, ?_⟩
  simp [specIgnoredSet]

/-- C2 (amended): one reconciliation tick of the host daemon, starting from a
worker map with duplicate-free keys and a successful channel discovery,
produces exactly one worker per discovered channel: a key has a worker after
the tick if and only if it was discovered, every discovered channel belongs to
a running guest (so the worker map's keys all lie in the running set), and -
correcting the claim - there is no ignored set: no guest is ever recorded as
ignored, not even a running guest without the guest-to-host channel. -/
theorem supervisor_tick_reconciliation
    (running : List (String × Int)) (entries : List FsEntry) (spawn : ChanKey → Worker)
    (ac : List (ChanKey × Worker)) (dir : String) (avail : List ChanKey)
    (hnd : (ac.map Prod.fst).Nodup)
    (hfind : findAvailableChannels guestToHostChannelName running entries = .ok avail) :
    hostTick ⟨ac, dir⟩ running entries spawn =
        .ok ⟨updateActiveChannels avail spawn ac, dir⟩ ∧
    (∀ key : ChanKey,
        (lookupA (updateActiveChannels avail spawn ac) key).isSome = true ↔ key ∈ avail) ∧
    (∀ key : ChanKey, key ∈ avail → (lookupA running key.1).isSome = true) ∧
    (∀ g : String, g ∉ specIgnoredSet ⟨updateActiveChannels avail spawn ac, dir⟩) := by
  refine ⟨?_, fun key => updateActiveChannels_lookup avail spawn ac hnd key,
      find_keys_running guestToHostChannelName running entries avail hfind,
      fun g => by simp [specIgnoredSet]⟩
  show (match findAvailableChannels guestToHostChannelName running entries with
    | Except.error err => (Except.error err : Except FindErr HostState)
    | Except.ok avail => Except.ok ⟨updateActiveChannels avail spawn ac, dir⟩) =
    Except.ok ⟨updateActiveChannels avail spawn ac, dir⟩
  rw [hfind]

/-- Witness for the amended C2 theorem: a stale worker for guest `g2` whose
socket has vanished, and a freshly discovered socket for running guest `g1`
under the old (flat) naming convention. -/
theorem supervisor_tick_reconciliation_witness :
    (([((("g2" : String), ("/s2" : String)),
        (⟨"g2", "/s2", true⟩ : Worker))].map Prod.fst).Nodup ∧
      findAvailableChannels guestToHostChannelName [("g1", (3 : Int))]
          [⟨"/var/lib/libvirt/qemu/channel/target", "g1.negotiator-guest-to-host.0", true⟩] =
        .ok [("g1",
          "/var/lib/libvirt/qemu/channel/target/g1.negotiator-guest-to-host.0")]) ∧
    (hostTick ⟨[((("g2" : String), ("/s2" : String)), (⟨"g2", "/s2", true⟩ : Worker))],
          "/var/lib/libvirt/qemu/channel/target"⟩ [("g1", (3 : Int))]
          [⟨"/var/lib/libvirt/qemu/channel/target", "g1.negotiator-guest-to-host.0", true⟩]
          (fun key => ⟨key.1, key.2, true⟩) =
        .ok ⟨updateActiveChannels
            [("g1", "/var/lib/libvirt/qemu/channel/target/g1.negotiator-guest-to-host.0")]
            (fun key => ⟨key.1, key.2, true⟩)
            [((("g2" : String), ("/s2" : String)), (⟨"g2", "/s2", true⟩ : Worker))],
          "/var/lib/libvirt/qemu/channel/target"⟩ ∧
      (∀ key : ChanKey,
        (lookupA (updateActiveChannels
            [("g1", "/var/lib/libvirt/qemu/channel/target/g1.negotiator-guest-to-host.0")]
            (fun key => ⟨key.1, key.2, true⟩)
            [((("g2" : String), ("/s2" : String)), (⟨"g2", "/s2", true⟩ : Worker))])
          key).isSome = true ↔
          key ∈ [("g1",
            "/var/lib/libvirt/qemu/channel/target/g1.negotiator-guest-to-host.0")]) ∧
      (∀ key : ChanKey,
        key ∈ [(("g1" : String),
            ("/var/lib/libvirt/qemu/channel/target/g1.negotiator-guest-to-host.0" : String))] →
          (lookupA [("g1", (3 : Int))] key.1).isSome = true) ∧
      (∀ g : String, g ∉ specIgnoredSet ⟨updateActiveChannels
          [("g1", "/var/lib/libvirt/qemu/channel/target/g1.negotiator-guest-to-host.0")]
          (fun key => ⟨key.1, key.2, true⟩)
          [((("g2" : String), ("/s2" : String)), (⟨"g2", "/s2", true⟩ : Worker))],
        "/var/lib/libvirt/qemu/channel/target"⟩)) :=
  ⟨⟨by decide, rfl⟩,
    supervisor_tick_reconciliation [("g1", (3 : Int))]
      [⟨"/var/lib/libvirt/qemu/channel/target", "g1.negotiator-guest-to-host.0", true⟩]
      (fun key => ⟨key.1, key.2, true⟩)
      [((("g2" : String), ("/s2" : String)), (⟨"g2", "/s2", true⟩ : Worker))]
      "/var/lib/libvirt/qemu/channel/target"
      [("g1", "/var/lib/libvirt/qemu/channel/target/g1.negotiator-guest-to-host.0")]
      (by decide) rfl⟩

/-! ## Guest blocking-read emulation (`GuestAgent.raw_readline`)

When the first `readline()` of an iteration returns no data, the guest
prepares the SIGIO-based blocking-read emulation: it constructs a
`WaitForRead` helper, and inside `with GracefulShutdown(): try: ...` starts
the helper, re-checks `readline()`, waits with `waiter.join()`, and checks
`readline()` once more; the `finally:` clause calls `waiter.terminate()`.
We model one execution as a trace of events, with an optional asynchronous
exception (such as the `TerminationError` that `GracefulShutdown` raises on
`SIGTERM`) striking at any of the three blocking points inside the `try`. -/

/-- Points inside the `try` block of the emulation where an exception can
strike after `waiter.start()` has run: the second `readline()`, the
`waiter.join()`, and the third `readline()`. -/
inductive ExcPt where
  | read2
  | join
  | read3
deriving DecidableEq

/-- Nondeterministic input of one execution of the emulation block: where (if
anywhere) an exception strikes, and what the second and third `readline()`
calls would return (`none` models an empty read). -/
structure EmuRun where
  exc : Option ExcPt
  read2 : Option String
  read3 : Option String

/-- Observable events of `raw_readline`: helper subprocess lifecycle, the
helper completing its `join`, the `time.sleep(1)` fallback, and the two ways
out of the function. -/
inductive RlEvent where
  | spawned
  | terminated
  | joined
  | slept
  | returned (data : String)
  | raised
deriving DecidableEq

/-- Outcome of the emulation block as seen by the enclosing `while` loop:
data was read (`break`), no data was read (fall through to the polling
sleep), or an exception propagates out of `raw_readline`. -/
inductive EmuOut where
  | gotData (d : String)
  | noData
  | excRaised
deriving DecidableEq

/-- The `try` body of the emulation block: start the helper, re-check
`readline()`, `waiter.join()`, check `readline()` again.  An exception point
only matters if execution actually reaches it. -/
def emuTryBody (r : EmuRun) : List RlEvent × EmuOut :=
  match r.exc with
  | some ExcPt.read2 => ([RlEvent.spawned], EmuOut.excRaised)
  | _ =>
    match r.read2 with
    | some d => ([RlEvent.spawned], EmuOut.gotData d)
    | none =>
      match r.exc with
      | some ExcPt.join => ([RlEvent.spawned], EmuOut.excRaised)
      | _ =>
        match r.exc with
        | some ExcPt.read3 => ([RlEvent.spawned, RlEvent.joined], EmuOut.excRaised)
        | _ =>
          match r.read3 with
          | some d => ([RlEvent.spawned, RlEvent.joined], EmuOut.gotData d)
          | none => ([RlEvent.spawned, RlEvent.joined], EmuOut.noData)

/-- Trace of the whole emulation block: whatever the `try` body did, the
`finally:` clause runs `waiter.terminate()` - on `break`, on fall-through and
on a propagating exception alike. -/
def emuTrace (r : EmuRun) : List RlEvent :=
  (emuTryBody r).1 ++ [RlEvent.terminated]

/-- Outcome of the emulation block (the `finally` clause does not change it). -/
def emuOut (r : EmuRun) : EmuOut := (emuTryBody r).2

/-- One iteration of the `while True` loop of `raw_readline`: the result of
the initial `readline()` and, if it was empty, the behaviour of the emulation
block. -/
structure RlIter where
  read1 : Option String
  emu : EmuRun

/-- The `while True` loop of `raw_readline` over a schedule of iteration
inputs: data on the first read returns immediately (no helper involved);
otherwise the emulation block runs and either supplies data, raises, or falls
through to `time.sleep(1)` and the next iteration.  The second component is
`some (some d)` when the method returns `d`, `some none` when an exception
propagates, and `none` when the schedule ran out while still looping. -/
def rawReadlineGo : List RlIter → List RlEvent × Option (Option String)
  | [] => ([], none)
  | it :: rest =>
    match it.read1 with
    | some d => ([RlEvent.returned d], some (some d))
    | none =>
      match emuOut it.emu with
      | EmuOut.gotData d => (emuTrace it.emu ++ [RlEvent.returned d], some (some d))
      | EmuOut.excRaised => (emuTrace it.emu ++ [RlEvent.raised], some none)
      | EmuOut.noData =>
        (emuTrace it.emu ++ RlEvent.slept :: (rawReadlineGo rest).1, (rawReadlineGo rest).2)

/-- `GuestAgent.raw_readline` on a schedule of iteration inputs. -/
def rawReadline (iters : List RlIter) : List RlEvent × Option (Option String) :=
  rawReadlineGo iters

theorem emuTryBody_balance (r : EmuRun) :
    (emuTryBody r).1.count RlEvent.spawned = 1 ∧
      (emuTryBody r).1.count RlEvent.terminated = 0 := by
  unfold emuTryBody
  split
  · exact ⟨rfl, rfl⟩
  · split
    · exact ⟨rfl, rfl⟩
    · split
      · exact ⟨rfl, rfl⟩
      · split
        · exact ⟨rfl, rfl⟩
        · split
          · exact ⟨rfl, rfl⟩
          · exact ⟨rfl, rfl⟩

theorem emuTrace_balance (r : EmuRun) :
    (emuTrace r).count RlEvent.spawned = (emuTrace r).count RlEvent.terminated := by
  unfold emuTrace
  rw [List.count_append, List.count_append, (emuTryBody_balance r).1,
    (emuTryBody_balance r).2]
  decide

/-- C7: on every exit path of the blocking-read emulation - data arriving
before or after the wait, the fall-through to the polling sleep, or an
exception at any blocking point (including the graceful-shutdown termination
error) - every helper subprocess that was spawned has been terminated by the
time `raw_readline` returns or its exception propagates: the full event trace
contains exactly as many terminations as spawns. -/
theorem raw_readline_helper_cleanup (iters : List RlIter) :
    (rawReadline iters).1.count RlEvent.spawned =
      (rawReadline iters).1.count RlEvent.terminated := by
  unfold rawReadline
  induction iters with
  | nil => rfl
  | cons it rest ih =>
    show (rawReadlineGo (it :: rest)).1.count RlEvent.spawned =
      (rawReadlineGo (it :: rest)).1.count RlEvent.terminated
    cases h1 : it.read1 with
    | some d =>
      have hgo : rawReadlineGo (it :: rest) = ([RlEvent.returned d], some (some d)) := by
        unfold rawReadlineGo
        rw [h1]
      rw [hgo]
      rfl
    | none =>
      cases ho : emuOut it.emu with
      | gotData d =>
        have hgo : rawReadlineGo (it :: rest) =
            (emuTrace it.emu ++ [RlEvent.returned d], some (some d)) := by
          unfold rawReadlineGo
          rw [h1]
          simp only [ho]
        rw [hgo]
        simp only [List.count_append, emuTrace_balance it.emu]
        rfl
      | excRaised =>
        have hgo : rawReadlineGo (it :: rest) =
            (emuTrace it.emu ++ [RlEvent.raised], some none) := by
          unfold rawReadlineGo
          rw [h1]
          simp only [ho]
        rw [hgo]
        simp only [List.count_append, emuTrace_balance it.emu]
        rfl
      | noData =>
        have hgo : rawReadlineGo (it :: rest) =
            (emuTrace it.emu ++ RlEvent.slept :: (rawReadlineGo rest).1,
              (rawReadlineGo rest).2) := by
          rw [rawReadlineGo, h1]
          simp only [ho]
        rw [hgo]
        simp only [List.count_append, List.count_cons, emuTrace_balance it.emu, ih]
        rfl

/-! ## Command execution (`NegotiatorInterface.execute`)

`execute` strips the directory component of `argv[0]` with
`os.path.basename`, then resolves the name against
`USER_COMMANDS_DIRECTORY` and `BUILTIN_COMMANDS_DIRECTORY`:
`command[0] = user_command if os.path.isfile(user_command) else
builtin_command`.  Only the user path is tested; the builtin path is the
unconditional fallback, and when the name exists in neither directory the
external `execute` call receives a nonexistent program path and fails.  The
directories are parameters here because `BUILTIN_COMMANDS_DIRECTORY` is
computed from the installation path at import time; the filesystem is the
abstract predicate `isFile` and the external `executor.execute` call is the
abstract `run`. -/

/-- Result of the external `executor.execute(...)` call. -/
inductive ExecResult where
  | output (s : String)
  | failed
deriving DecidableEq

/-- The resolution step of `NegotiatorInterface.execute`:
`command_name = os.path.basename(command[0])`, then the user-directory entry
if it is a file, else the builtin-directory entry. -/
def resolveCommand (isFile : String → Bool) (userDir builtinDir : String)
    (argv0 : String) : String :=
  if isFile (pyJoin userDir (basename argv0)) then pyJoin userDir (basename argv0)
  else pyJoin builtinDir (basename argv0)

/-- `NegotiatorInterface.execute(*command, **options)`: the base-class
`prepare_environment` is a no-op, so the call resolves `argv[0]` and hands the
rewritten argument vector to the external runner. -/
def executeCmd (run : List String → Option String → ExecResult) (isFile : String → Bool)
    (userDir builtinDir : String) (argv0 : String) (args : List String)
    (inp : Option String) : ExecResult :=
  run (resolveCommand isFile userDir builtinDir argv0 :: args) inp

theorem takeWhile_of_all {α : Type} (q : α → Bool) :
    ∀ l : List α, (∀ x ∈ l, q x = true) → l.takeWhile q = l := by
  intro l h
  induction l with
  | nil => rfl
  | cons a rest ih =>
    rw [List.takeWhile_cons, h a (List.mem_cons_self a rest)]
    rw [if_pos rfl, ih (fun x hx => h x (List.mem_cons_of_mem a hx))]

theorem basename_basename (p : String) : basename (basename p) = basename p := by
  unfold basename
  show String.mk (((p.data.reverse.takeWhile (fun c => c != '/')).reverse.reverse.takeWhile
      (fun c => c != '/')).reverse) = _
  rw [List.reverse_reverse,
    takeWhile_of_all (fun c => c != '/') _
      (fun x hx => @List.mem_takeWhile_imp Char (fun c => c != '/') p.data.reverse x hx)]

/-- C6: `execute` strips the directory component of `argv[0]` before
resolution (resolution only depends on the basename), the user-directory
entry wins whenever a file of that name exists there, the builtin-directory
entry is used whenever the user entry is absent (in particular when the name
exists only in the builtin directory), and when the name is a file in neither
directory the external runner is handed a path that is not a file, so the
call fails. -/
theorem execute_command_resolution
    (run : List String → Option String → ExecResult) (isFile : String → Bool)
    (userDir builtinDir argv0 : String) (args : List String) (inp : Option String)
    (hrun : ∀ c rest inp2, isFile c = false → run (c :: rest) inp2 = ExecResult.failed) :
    (resolveCommand isFile userDir builtinDir argv0 =
        resolveCommand isFile userDir builtinDir (basename argv0)) ∧
    (isFile (pyJoin userDir (basename argv0)) = true →
      executeCmd run isFile userDir builtinDir argv0 args inp =
        run (pyJoin userDir (basename argv0) :: args) inp) ∧
    (isFile (pyJoin userDir (basename argv0)) = false →
      executeCmd run isFile userDir builtinDir argv0 args inp =
        run (pyJoin builtinDir (basename argv0) :: args) inp) ∧
    (isFile (pyJoin userDir (basename argv0)) = false →
      isFile (pyJoin builtinDir (basename argv0)) = false →
      executeCmd run isFile userDir builtinDir argv0 args inp = ExecResult.failed) := by
  refine ⟨?_, fun hu => ?_, fun hu => ?_, fun hu hb => ?_⟩
  · unfold resolveCommand
    rw [basename_basename]
  · unfold executeCmd resolveCommand
    rw [if_pos hu]
  · unfold executeCmd resolveCommand
    rw [if_neg (by rw [hu]; exact Bool.false_ne_true)]
  · unfold executeCmd resolveCommand
    rw [if_neg (by rw [hu]; exact Bool.false_ne_true)]
    exact hrun _ args inp hb

/-- Witness for `execute_command_resolution`: a filesystem where only
`/usr/lib/negotiator/commands/deploy` exists, a runner that fails on
non-files, and an invocation of `/bin/deploy` - the directory component is
dropped and the user-directory entry runs. -/
theorem execute_command_resolution_witness :
    (∀ c rest inp2,
        (fun p => p == "/usr/lib/negotiator/commands/deploy") c = false →
        (fun (argv : List String) (_ : Option String) =>
            match argv with
            | [] => ExecResult.failed
            | c2 :: _ =>
              if (fun p => p == "/usr/lib/negotiator/commands/deploy") c2 then
                ExecResult.output "ran"
              else ExecResult.failed) (c :: rest) inp2 = ExecResult.failed) ∧
    ((resolveCommand (fun p => p == "/usr/lib/negotiator/commands/deploy")
          "/usr/lib/negotiator/commands" "/opt/negotiator/scripts" "/bin/deploy" =
        resolveCommand (fun p => p == "/usr/lib/negotiator/commands/deploy")
          "/usr/lib/negotiator/commands" "/opt/negotiator/scripts"
          (basename "/bin/deploy")) ∧
      ((fun p => p == "/usr/lib/negotiator/commands/deploy")
          (pyJoin "/usr/lib/negotiator/commands" (basename "/bin/deploy")) = true →
        executeCmd
            (fun (argv : List String) (_ : Option String) =>
              match argv with
              | [] => ExecResult.failed
              | c2 :: _ =>
                if (fun p => p == "/usr/lib/negotiator/commands/deploy") c2 then
                  ExecResult.output "ran"
                else ExecResult.failed)
            (fun p => p == "/usr/lib/negotiator/commands/deploy")
            "/usr/lib/negotiator/commands" "/opt/negotiator/scripts" "/bin/deploy" [] none =
          (fun (argv : List String) (_ : Option String) =>
              match argv with
              | [] => ExecResult.failed
              | c2 :: _ =>
                if (fun p => p == "/usr/lib/negotiator/commands/deploy") c2 then
                  ExecResult.output "ran"
                else ExecResult.failed)
            (pyJoin "/usr/lib/negotiator/commands" (basename "/bin/deploy") :: []) none) ∧
      ((fun p => p == "/usr/lib/negotiator/commands/deploy")
          (pyJoin "/usr/lib/negotiator/commands" (basename "/bin/deploy")) = false →
        executeCmd
            (fun (argv : List String) (_ : Option String) =>
              match argv with
              | [] => ExecResult.failed
              | c2 :: _ =>
                if (fun p => p == "/usr/lib/negotiator/commands/deploy") c2 then
                  ExecResult.output "ran"
                else ExecResult.failed)
            (fun p => p == "/usr/lib/negotiator/commands/deploy")
            "/usr/lib/negotiator/commands" "/opt/negotiator/scripts" "/bin/deploy" [] none =
          (fun (argv : List String) (_ : Option String) =>
              match argv with
              | [] => ExecResult.failed
              | c2 :: _ =>
                if (fun p => p == "/usr/lib/negotiator/commands/deploy") c2 then
                  ExecResult.output "ran"
                else ExecResult.failed)
            (pyJoin "/opt/negotiator/scripts" (basename "/bin/deploy") :: []) none) ∧
      ((fun p => p == "/usr/lib/negotiator/commands/deploy")
          (pyJoin "/usr/lib/negotiator/commands" (basename "/bin/deploy")) = false →
        (fun p => p == "/usr/lib/negotiator/commands/deploy")
          (pyJoin "/opt/negotiator/scripts" (basename "/bin/deploy")) = false →
        executeCmd
            (fun (argv : List String) (_ : Option String) =>
              match argv with
              | [] => ExecResult.failed
              | c2 :: _ =>
                if (fun p => p == "/usr/lib/negotiator/commands/deploy") c2 then
                  ExecResult.output "ran"
                else ExecResult.failed)
            (fun p => p == "/usr/lib/negotiator/commands/deploy")
            "/usr/lib/negotiator/commands" "/opt/negotiator/scripts" "/bin/deploy" [] none =
          ExecResult.failed)) :=
  ⟨fun c rest inp2 hc => by simp only [hc, Bool.false_eq_true, if_false],
    execute_command_resolution
      (fun (argv : List String) (_ : Option String) =>
        match argv with
        | [] => ExecResult.failed
        | c2 :: _ =>
          if (fun p => p == "/usr/lib/negotiator/commands/deploy") c2 then
            ExecResult.output "ran"
          else ExecResult.failed)
      (fun p => p == "/usr/lib/negotiator/commands/deploy")
      "/usr/lib/negotiator/commands" "/opt/negotiator/scripts" "/bin/deploy" [] none
      (fun c rest inp2 hc => by simp only [hc, Bool.false_eq_true, if_false])⟩

/-! ## Host channel environment (`GuestChannel.prepare_environment`)

`GuestChannel.prepare_environment` executes
`os.environ['NEGOTIATOR_GUEST'] = self.guest_name`: it mutates the worker
process's own global environment, not a per-subprocess copy.
`NegotiatorInterface.execute` calls `self.prepare_environment()` first and
touches `os.environ` nowhere else, so after the call the variable holds the
guest's name in the calling process and every other variable is unchanged;
nothing ever deletes the key. -/

/-- `GuestChannel.execute` as run in a worker for guest `guest`: the
environment mutation of `prepare_environment`, then command resolution and
the external runner.  Returns the process's global environment after the
call together with the runner's result. -/
def guestChannelExecute (run : List String → Option String → ExecResult)
    (isFile : String → Bool) (userDir builtinDir : String) (guest : String)
    (env : List (String × String)) (argv0 : String) (args : List String)
    (inp : Option String) : List (String × String) × ExecResult :=
  (insertA env "NEGOTIATOR_GUEST" guest,
    run (resolveCommand isFile userDir builtinDir argv0 :: args) inp)

/-- C10: after any `execute` on a `GuestChannel` for guest `guest`, the
calling process's own environment maps `NEGOTIATOR_GUEST` to `guest` - the
hook mutates `os.environ` itself, so the value persists after the call and is
never unset - and every other environment variable is unchanged. -/
theorem negotiator_guest_env_mutation (run : List String → Option String → ExecResult)
    (isFile : String → Bool) (userDir builtinDir guest : String)
    (env : List (String × String)) (argv0 : String) (args : List String)
    (inp : Option String) :
    lookupA (guestChannelExecute run isFile userDir builtinDir guest env argv0 args inp).1
        "NEGOTIATOR_GUEST" = some guest ∧
    (∀ k, k ≠ "NEGOTIATOR_GUEST" →
      lookupA (guestChannelExecute run isFile userDir builtinDir guest env argv0 args inp).1 k =
        lookupA env k) :=
  ⟨lookupA_insertA_self env "NEGOTIATOR_GUEST" guest,
    fun k hk => lookupA_insertA_other env "NEGOTIATOR_GUEST" k guest hk⟩

end Negotiator
